import Mathlib

/-!
Verification of the Bresenham-style line rasterizer in `src/Main.cpp`
(functions `renderLine`, `renderLineAA`, `renderDecayLine`).

Embedding conventions:
* `s3d::Point` (a pair of `int32`) is modelled as `ℤ × ℤ`; the `int32`
  arithmetic of the source is modelled as unbounded integer arithmetic.
* `s3d::ColorF` (four `double` channels) is modelled as four exact rationals
  (`ℚ`); `double` arithmetic is modelled as exact rational arithmetic.
* `img[y][x].set(c)` is modelled as recording a `Write` with position `(x, y)`
  and color `c`; a run of a render function is modelled as the list of writes
  it performs, in order.
* The source's unbounded `for (;;)` loops are modelled by structurally
  recursive functions consuming a fuel argument; the callers pass enough fuel
  for the loop to reach its `break` (this is proved by the closed-form
  lemmas below, whose right-hand sides have the full expected length).
-/

/-- RGBA color, modelling `s3d::ColorF`. -/
structure ColorF where
  r : ℚ
  g : ℚ
  b : ℚ
  a : ℚ
deriving DecidableEq, Repr

/-- One pixel write `img[pos.2][pos.1].set color`. -/
structure Write where
  pos : ℤ × ℤ
  color : ColorF
deriving DecidableEq, Repr

/-- Truncation of a rational toward zero, modelling the C++ conversion of a
`double` value to `s3d::int32` (as in `int32 decayLen = (...) * rate`). -/
def truncRat (q : ℚ) : ℤ := if q < 0 then -⌊-q⌋ else ⌊q⌋

/-- Sequential clamping of a rate to `[0,1]`, modelling
`if (rate < 0.0) rate = 0.0; if (rate > 1.0) rate = 1.0;`. -/
def clamp01 (x : ℚ) : ℚ := if x < 0 then 0 else if 1 < x then 1 else x

/-- Per-axis distance, modelling the source's
`if (endPos.x >= startPos.x) dist.x = endPos.x - startPos.x; else dist.x = startPos.x - endPos.x;`
with `a` the start coordinate and `b` the end coordinate. -/
def dist1 (a b : ℤ) : ℤ := if a ≤ b then b - a else a - b

/-- Per-axis direction of travel from the end point toward the start point,
modelling `if (endPos.x >= startPos.x) step.x = -1; else step.x = 1;`. -/
def step1 (a b : ℤ) : ℤ := if a ≤ b then -1 else 1

/-- The x-major loop of `renderLine` (lines 58-78 of `src/Main.cpp`):
draw the pixel at `now`, stop if `now.x` reached `startX`, advance `now.x` by
`sx`, accumulate the error `e` by `d2y` and, when it reaches the threshold
`d2x`, advance `now.y` by `sy` and reset the error.  Returns the positions
drawn.  `fuel` bounds the number of iterations; every caller passes enough
for the loop to reach its exit condition. -/
def lineLoopX (startX sx sy d2x d2y : ℤ) : ℕ → ℤ × ℤ → ℤ → List (ℤ × ℤ)
  | 0, _, _ => []
  | fuel + 1, now, e =>
    now ::
      (if now.1 = startX then []
       else
         let nx := now.1 + sx
         let e1 := e + d2y
         if d2x ≤ e1 then
           lineLoopX startX sx sy d2x d2y fuel (nx, now.2 + sy) (e1 - d2x)
         else
           lineLoopX startX sx sy d2x d2y fuel (nx, now.2) e1)

/-- The y-major loop of `renderLine` (lines 83-94 of `src/Main.cpp`),
the mirror image of `lineLoopX` with the roles of x and y exchanged. -/
def lineLoopY (startY sx sy d2x d2y : ℤ) : ℕ → ℤ × ℤ → ℤ → List (ℤ × ℤ)
  | 0, _, _ => []
  | fuel + 1, now, e =>
    now ::
      (if now.2 = startY then []
       else
         let ny := now.2 + sy
         let e1 := e + d2x
         if d2y ≤ e1 then
           lineLoopY startY sx sy d2x d2y fuel (now.1 + sx, ny) (e1 - d2y)
         else
           lineLoopY startY sx sy d2x d2y fuel (now.1, ny) e1)

/-- Instrumented version of `lineLoopX` recording, for each iteration, the
state `(now, e)` at the head of the loop body.  `lineLoopX` is its
position projection (`lineLoopX_eq_steps`). -/
def lineStepsX (startX sx sy d2x d2y : ℤ) : ℕ → ℤ × ℤ → ℤ → List ((ℤ × ℤ) × ℤ)
  | 0, _, _ => []
  | fuel + 1, now, e =>
    (now, e) ::
      (if now.1 = startX then []
       else
         let nx := now.1 + sx
         let e1 := e + d2y
         if d2x ≤ e1 then
           lineStepsX startX sx sy d2x d2y fuel (nx, now.2 + sy) (e1 - d2x)
         else
           lineStepsX startX sx sy d2x d2y fuel (nx, now.2) e1)

/-- Instrumented version of `lineLoopY` recording the state `(now, e)` at the
head of each iteration. -/
def lineStepsY (startY sx sy d2x d2y : ℤ) : ℕ → ℤ × ℤ → ℤ → List ((ℤ × ℤ) × ℤ)
  | 0, _, _ => []
  | fuel + 1, now, e =>
    (now, e) ::
      (if now.2 = startY then []
       else
         let ny := now.2 + sy
         let e1 := e + d2x
         if d2y ≤ e1 then
           lineStepsY startY sx sy d2x d2y fuel (now.1 + sx, ny) (e1 - d2y)
         else
           lineStepsY startY sx sy d2x d2y fuel (now.1, ny) e1)

/-- The plain rasterizer `renderLine` of `src/Main.cpp` (lines 37-96), as the
list of pixel positions it writes, in order.  Every write uses the constant
base color, so positions are the whole observable behavior.  Rendering starts
at `endPos`; the x axis is major when `dist.x >= dist.y`; the error
accumulator starts at `dist[major]` and the thresholds are the doubled
distances. -/
def renderLine (startPos endPos : ℤ × ℤ) : List (ℤ × ℤ) :=
  if dist1 startPos.2 endPos.2 ≤ dist1 startPos.1 endPos.1 then
    lineLoopX startPos.1 (step1 startPos.1 endPos.1) (step1 startPos.2 endPos.2)
      (dist1 startPos.1 endPos.1 * 2) (dist1 startPos.2 endPos.2 * 2)
      ((dist1 startPos.1 endPos.1).toNat + 1) endPos (dist1 startPos.1 endPos.1)
  else
    lineLoopY startPos.2 (step1 startPos.1 endPos.1) (step1 startPos.2 endPos.2)
      (dist1 startPos.1 endPos.1 * 2) (dist1 startPos.2 endPos.2 * 2)
      ((dist1 startPos.2 endPos.2).toNat + 1) endPos (dist1 startPos.2 endPos.2)

/-- Instrumented `renderLine`: the trace of loop-head states `(now, e)` of the
run.  `renderLine` is its position projection. -/
def renderLineSteps (startPos endPos : ℤ × ℤ) : List ((ℤ × ℤ) × ℤ) :=
  if dist1 startPos.2 endPos.2 ≤ dist1 startPos.1 endPos.1 then
    lineStepsX startPos.1 (step1 startPos.1 endPos.1) (step1 startPos.2 endPos.2)
      (dist1 startPos.1 endPos.1 * 2) (dist1 startPos.2 endPos.2 * 2)
      ((dist1 startPos.1 endPos.1).toNat + 1) endPos (dist1 startPos.1 endPos.1)
  else
    lineStepsY startPos.2 (step1 startPos.1 endPos.1) (step1 startPos.2 endPos.2)
      (dist1 startPos.1 endPos.1 * 2) (dist1 startPos.2 endPos.2 * 2)
      ((dist1 startPos.2 endPos.2).toNat + 1) endPos (dist1 startPos.2 endPos.2)

/-- The x-major loop of `renderLineAA` (lines 125-154 of `src/Main.cpp`):
like `lineLoopX`, but whenever the error threshold is crossed, two extra
pseudo-anti-aliasing pixels in color `aaCol` are written: one at the
post-x-advance position before y advances, and one at the pre-x-advance
position after y advances.  Main pixels are written in `col`. -/
def aaLoopX (startX sx sy d2x d2y : ℤ) (col aaCol : ColorF) :
    ℕ → ℤ × ℤ → ℤ → List Write
  | 0, _, _ => []
  | fuel + 1, now, e =>
    Write.mk now col ::
      (if now.1 = startX then []
       else
         let nx := now.1 + sx
         let e1 := e + d2y
         if d2x ≤ e1 then
           Write.mk (nx, now.2) aaCol ::
           Write.mk (nx - sx, now.2 + sy) aaCol ::
             aaLoopX startX sx sy d2x d2y col aaCol fuel (nx, now.2 + sy) (e1 - d2x)
         else
           aaLoopX startX sx sy d2x d2y col aaCol fuel (nx, now.2) e1)

/-- The y-major loop of `renderLineAA` (lines 158-172 of `src/Main.cpp`),
the mirror image of `aaLoopX`. -/
def aaLoopY (startY sx sy d2x d2y : ℤ) (col aaCol : ColorF) :
    ℕ → ℤ × ℤ → ℤ → List Write
  | 0, _, _ => []
  | fuel + 1, now, e =>
    Write.mk now col ::
      (if now.2 = startY then []
       else
         let ny := now.2 + sy
         let e1 := e + d2x
         if d2y ≤ e1 then
           Write.mk (now.1, ny) aaCol ::
           Write.mk (now.1 + sx, ny - sy) aaCol ::
             aaLoopY startY sx sy d2x d2y col aaCol fuel (now.1 + sx, ny) (e1 - d2y)
         else
           aaLoopY startY sx sy d2x d2y col aaCol fuel (now.1, ny) e1)

/-- The rasterizer with pseudo anti-aliasing, `renderLineAA` of `src/Main.cpp`
(lines 101-174), as its list of writes.  `aaColorRate` is clamped to `[0,1]`
and the AA color is the base color with alpha scaled by the clamped rate. -/
def renderLineAA (startPos endPos : ℤ × ℤ) (col : ColorF) (aaColorRate : ℚ) :
    List Write :=
  let aaCol : ColorF := ⟨col.r, col.g, col.b, col.a * clamp01 aaColorRate⟩
  if dist1 startPos.2 endPos.2 ≤ dist1 startPos.1 endPos.1 then
    aaLoopX startPos.1 (step1 startPos.1 endPos.1) (step1 startPos.2 endPos.2)
      (dist1 startPos.1 endPos.1 * 2) (dist1 startPos.2 endPos.2 * 2) col aaCol
      ((dist1 startPos.1 endPos.1).toNat + 1) endPos (dist1 startPos.1 endPos.1)
  else
    aaLoopY startPos.2 (step1 startPos.1 endPos.1) (step1 startPos.2 endPos.2)
      (dist1 startPos.1 endPos.1 * 2) (dist1 startPos.2 endPos.2 * 2) col aaCol
      ((dist1 startPos.2 endPos.2).toNat + 1) endPos (dist1 startPos.2 endPos.2)

/-- The first (non-decaying) loop of `renderDecayLine`, x-major case
(lines 213-238 of `src/Main.cpp`): identical to the `renderLineAA` loop except
that it exits when `now.x` reaches the split coordinate `splitX`.  Returns the
writes together with the final `(now, e)` state, which the second loop
continues from. -/
def decayLoop1X (splitX sx sy d2x d2y : ℤ) (col aaCol : ColorF) :
    ℕ → ℤ × ℤ → ℤ → List Write × (ℤ × ℤ) × ℤ
  | 0, now, e => ([], now, e)
  | fuel + 1, now, e =>
    if now.1 = splitX then ([Write.mk now col], now, e)
    else
      let nx := now.1 + sx
      let e1 := e + d2y
      if d2x ≤ e1 then
        let r := decayLoop1X splitX sx sy d2x d2y col aaCol fuel (nx, now.2 + sy) (e1 - d2x)
        (Write.mk now col :: Write.mk (nx, now.2) aaCol ::
           Write.mk (nx - sx, now.2 + sy) aaCol :: r.1, r.2)
      else
        let r := decayLoop1X splitX sx sy d2x d2y col aaCol fuel (nx, now.2) e1
        (Write.mk now col :: r.1, r.2)

/-- The first (non-decaying) loop of `renderDecayLine`, y-major case
(lines 270-283 of `src/Main.cpp`). -/
def decayLoop1Y (splitY sx sy d2x d2y : ℤ) (col aaCol : ColorF) :
    ℕ → ℤ × ℤ → ℤ → List Write × (ℤ × ℤ) × ℤ
  | 0, now, e => ([], now, e)
  | fuel + 1, now, e =>
    if now.2 = splitY then ([Write.mk now col], now, e)
    else
      let ny := now.2 + sy
      let e1 := e + d2x
      if d2y ≤ e1 then
        let r := decayLoop1Y splitY sx sy d2x d2y col aaCol fuel (now.1 + sx, ny) (e1 - d2y)
        (Write.mk now col :: Write.mk (now.1, ny) aaCol ::
           Write.mk (now.1 + sx, ny - sy) aaCol :: r.1, r.2)
      else
        let r := decayLoop1Y splitY sx sy d2x d2y col aaCol fuel (now.1, ny) e1
        (Write.mk now col :: r.1, r.2)

/-- The second (decaying) loop of `renderDecayLine`, x-major case
(lines 245-261 of `src/Main.cpp`): each iteration first advances `now.x`,
accumulates the error, decrements the alpha of the working color by `fade`,
then possibly writes the two AA pixels (with the already decremented alpha
scaled by `aaRate`) while advancing `now.y`, then writes the main pixel with
the decremented alpha, and exits after the write once `now.x` reached
`startX`.  `rgb` carries the color channels, `a` the current alpha. -/
def decayLoop2X (startX sx sy d2x d2y : ℤ) (rgb : ColorF) (aaRate fade : ℚ) :
    ℕ → ℤ × ℤ → ℤ → ℚ → List Write
  | 0, _, _, _ => []
  | fuel + 1, now, e, a =>
    let nx := now.1 + sx
    let e1 := e + d2y
    let a1 := a - fade
    if d2x ≤ e1 then
      Write.mk (nx, now.2) ⟨rgb.r, rgb.g, rgb.b, a1 * aaRate⟩ ::
      Write.mk (nx - sx, now.2 + sy) ⟨rgb.r, rgb.g, rgb.b, a1 * aaRate⟩ ::
      Write.mk (nx, now.2 + sy) ⟨rgb.r, rgb.g, rgb.b, a1⟩ ::
        (if nx = startX then []
         else decayLoop2X startX sx sy d2x d2y rgb aaRate fade fuel (nx, now.2 + sy) (e1 - d2x) a1)
    else
      Write.mk (nx, now.2) ⟨rgb.r, rgb.g, rgb.b, a1⟩ ::
        (if nx = startX then []
         else decayLoop2X startX sx sy d2x d2y rgb aaRate fade fuel (nx, now.2) e1 a1)

/-- The second (decaying) loop of `renderDecayLine`, y-major case
(lines 287-302 of `src/Main.cpp`). -/
def decayLoop2Y (startY sx sy d2x d2y : ℤ) (rgb : ColorF) (aaRate fade : ℚ) :
    ℕ → ℤ × ℤ → ℤ → ℚ → List Write
  | 0, _, _, _ => []
  | fuel + 1, now, e, a =>
    let ny := now.2 + sy
    let e1 := e + d2x
    let a1 := a - fade
    if d2y ≤ e1 then
      Write.mk (now.1, ny) ⟨rgb.r, rgb.g, rgb.b, a1 * aaRate⟩ ::
      Write.mk (now.1 + sx, ny - sy) ⟨rgb.r, rgb.g, rgb.b, a1 * aaRate⟩ ::
      Write.mk (now.1 + sx, ny) ⟨rgb.r, rgb.g, rgb.b, a1⟩ ::
        (if ny = startY then []
         else decayLoop2Y startY sx sy d2x d2y rgb aaRate fade fuel (now.1 + sx, ny) (e1 - d2y) a1)
    else
      Write.mk (now.1, ny) ⟨rgb.r, rgb.g, rgb.b, a1⟩ ::
        (if ny = startY then []
         else decayLoop2Y startY sx sy d2x d2y rgb aaRate fade fuel (now.1, ny) e1 a1)

/-- The decaying rasterizer `renderDecayLine` of `src/Main.cpp`
(lines 179-304), as its list of writes.  After clamping the rates, the
major-axis branch computes `decayLen = (end[major] - start[major]) * rate`
(truncated to an integer) and the split coordinate
`split = start[major] + decayLen`, runs the AA loop from the end point to the
split point, returns early if the split point is already the start point, and
otherwise runs the fade-out loop with alpha step
`col.a / (1 + |decayLen|)` down to the start point. -/
def renderDecayLine (startPos endPos : ℤ × ℤ) (col : ColorF)
    (decaySectionRate aaColorRate : ℚ) : List Write :=
  let ar := clamp01 aaColorRate
  let aaCol : ColorF := ⟨col.r, col.g, col.b, col.a * ar⟩
  let dr := clamp01 decaySectionRate
  if dist1 startPos.2 endPos.2 ≤ dist1 startPos.1 endPos.1 then
    let decayLen := truncRat ((endPos.1 - startPos.1 : ℤ) * dr)
    let splitX := startPos.1 + decayLen
    let p1 := decayLoop1X splitX (step1 startPos.1 endPos.1) (step1 startPos.2 endPos.2)
      (dist1 startPos.1 endPos.1 * 2) (dist1 startPos.2 endPos.2 * 2) col aaCol
      ((dist1 startPos.1 endPos.1).toNat + 1) endPos (dist1 startPos.1 endPos.1)
    if p1.2.1.1 = startPos.1 then p1.1
    else
      p1.1 ++ decayLoop2X startPos.1 (step1 startPos.1 endPos.1) (step1 startPos.2 endPos.2)
        (dist1 startPos.1 endPos.1 * 2) (dist1 startPos.2 endPos.2 * 2) col ar
        (col.a / (1 + (decayLen.natAbs : ℚ))) decayLen.natAbs p1.2.1 p1.2.2 col.a
  else
    let decayLen := truncRat ((endPos.2 - startPos.2 : ℤ) * dr)
    let splitY := startPos.2 + decayLen
    let p1 := decayLoop1Y splitY (step1 startPos.1 endPos.1) (step1 startPos.2 endPos.2)
      (dist1 startPos.1 endPos.1 * 2) (dist1 startPos.2 endPos.2 * 2) col aaCol
      ((dist1 startPos.2 endPos.2).toNat + 1) endPos (dist1 startPos.2 endPos.2)
    if p1.2.1.2 = startPos.2 then p1.1
    else
      p1.1 ++ decayLoop2Y startPos.2 (step1 startPos.1 endPos.1) (step1 startPos.2 endPos.2)
        (dist1 startPos.1 endPos.1 * 2) (dist1 startPos.2 endPos.2 * 2) col ar
        (col.a / (1 + (decayLen.natAbs : ℚ))) decayLen.natAbs p1.2.1 p1.2.2 col.a


/-- Characterization (for the statements below) of the writes of the x-major
AA loop in terms of the plain loop's pixel positions: every main pixel is
written in the base color, and between two consecutive main pixels `p, q`
that differ on both axes (a simultaneous major+minor "corner" move), exactly
the two pixels diagonally adjacent to that corner are written in the AA
color: first `(q.1, p.2)` (major already advanced, minor not yet), then
`(p.1, q.2)` (major not yet advanced, minor already). -/
def aaWeaveX (col aaCol : ColorF) : List (ℤ × ℤ) → List Write
  | [] => []
  | [p] => [Write.mk p col]
  | p :: q :: rest =>
    if p.2 = q.2 then Write.mk p col :: aaWeaveX col aaCol (q :: rest)
    else
      Write.mk p col :: Write.mk (q.1, p.2) aaCol :: Write.mk (p.1, q.2) aaCol ::
        aaWeaveX col aaCol (q :: rest)

/-- Mirror-image characterization for the y-major AA loop: the same two
diagonal corner pixels, written in the loop's order `(p.1, q.2)` then
`(q.1, p.2)`. -/
def aaWeaveY (col aaCol : ColorF) : List (ℤ × ℤ) → List Write
  | [] => []
  | [p] => [Write.mk p col]
  | p :: q :: rest =>
    if p.1 = q.1 then Write.mk p col :: aaWeaveY col aaCol (q :: rest)
    else
      Write.mk p col :: Write.mk (p.1, q.2) aaCol :: Write.mk (q.1, p.2) aaCol ::
        aaWeaveY col aaCol (q :: rest)



/-- Swap of the two coordinates of a write's position, used to relate the
y-major decay loops to their x-major mirror images. -/
def writeSwap (w : Write) : Write := Write.mk (w.pos.2, w.pos.1) w.color

/-- Characterization (for the statements below) of the output of the fade-out
loop `decayLoop2X` started at `(nx, ny)` with error `e0` and alpha `a`:
iteration `k+1` (for `k < n`) first decrements the alpha to
`a - (k+1) * fade` and then draws — two corner AA pixels (alpha further
scaled by `aaRate`) when the error threshold is crossed, and always the main
pixel with alpha exactly `a - (k+1) * fade`. -/
def decayBlocks (sx sy d2x d2y : ℤ) (rgb : ColorF) (aaRate fade : ℚ)
    (nx ny e0 : ℤ) (a : ℚ) (n : ℕ) : List Write :=
  ((List.range n).map (fun k : ℕ =>
    if (e0 + ((k : ℤ) + 1) * d2y) / d2x = (e0 + (k : ℤ) * d2y) / d2x then
      [Write.mk (nx + ((k : ℤ) + 1) * sx, ny + sy * ((e0 + (k : ℤ) * d2y) / d2x))
        ⟨rgb.r, rgb.g, rgb.b, a - ((k : ℚ) + 1) * fade⟩]
    else
      [Write.mk (nx + ((k : ℤ) + 1) * sx, ny + sy * ((e0 + (k : ℤ) * d2y) / d2x))
         ⟨rgb.r, rgb.g, rgb.b, (a - ((k : ℚ) + 1) * fade) * aaRate⟩,
       Write.mk (nx + (k : ℤ) * sx, ny + sy * ((e0 + ((k : ℤ) + 1) * d2y) / d2x))
         ⟨rgb.r, rgb.g, rgb.b, (a - ((k : ℚ) + 1) * fade) * aaRate⟩,
       Write.mk (nx + ((k : ℤ) + 1) * sx, ny + sy * ((e0 + ((k : ℤ) + 1) * d2y) / d2x))
         ⟨rgb.r, rgb.g, rgb.b, a - ((k : ℚ) + 1) * fade⟩])).flatten


lemma dist1_nonneg (a b : ℤ) : 0 ≤ dist1 a b := by
  unfold dist1; split <;> omega

lemma dist1_comm (a b : ℤ) : dist1 a b = dist1 b a := by
  unfold dist1; split <;> split <;> omega

lemma dist1_natAbs (a b : ℤ) : dist1 a b = ((b - a).natAbs : ℤ) := by
  unfold dist1; split <;> omega

lemma step1_cases (a b : ℤ) : step1 a b = 1 ∨ step1 a b = -1 := by
  unfold step1; split
  · exact Or.inr rfl
  · exact Or.inl rfl

lemma start_reach (a b : ℤ) : a = b + ((dist1 a b).toNat : ℤ) * step1 a b := by
  simp only [dist1, step1]
  rcases le_or_lt a b with h | h
  · rw [if_pos h, if_pos h]; omega
  · rw [if_neg (not_le.mpr h), if_neg (not_le.mpr h)]; omega

lemma lineStepsX_succ (startX sx sy d2x d2y : ℤ) (fuel : ℕ) (nx ny e : ℤ) :
    lineStepsX startX sx sy d2x d2y (fuel + 1) (nx, ny) e =
      ((nx, ny), e) ::
        (if nx = startX then []
         else if d2x ≤ e + d2y then
           lineStepsX startX sx sy d2x d2y fuel (nx + sx, ny + sy) (e + d2y - d2x)
         else lineStepsX startX sx sy d2x d2y fuel (nx + sx, ny) (e + d2y)) := rfl

lemma lineStepsX_closed (startX sx sy d2x d2y : ℤ)
    (hsx : sx = 1 ∨ sx = -1) (hdy0 : 0 ≤ d2y) (hdyx : d2y ≤ d2x) :
    ∀ (n : ℕ) (nx ny e : ℤ), startX = nx + n * sx → 0 ≤ e → e < d2x →
      lineStepsX startX sx sy d2x d2y (n + 1) (nx, ny) e =
        (List.range (n + 1)).map (fun k : ℕ =>
          ((nx + (k : ℤ) * sx, ny + sy * ((e + (k : ℤ) * d2y) / d2x)),
            e + (k : ℤ) * d2y - d2x * ((e + (k : ℤ) * d2y) / d2x))) := by
  intro n
  induction n with
  | zero =>
    intro nx ny e hstart he0 he1
    have hx : nx = startX := by omega
    rw [lineStepsX_succ, if_pos hx]
    have hr : List.range 1 = [0] := rfl
    rw [hr, List.map_cons, List.map_nil]
    simp only [Nat.cast_zero, zero_mul, add_zero, Int.ediv_eq_zero_of_lt he0 he1, mul_zero,
      sub_zero]
  | succ n ih =>
    intro nx ny e hstart he0 he1
    have hd2x : d2x ≠ 0 := by omega
    have hx : ¬ nx = startX := by rcases hsx with h | h <;> subst h <;> omega
    rw [lineStepsX_succ, if_neg hx]
    rw [List.range_succ_eq_map, List.map_cons, List.map_map]
    have hhead : ((nx + ((0 : ℕ) : ℤ) * sx, ny + sy * ((e + ((0 : ℕ) : ℤ) * d2y) / d2x)),
        e + ((0 : ℕ) : ℤ) * d2y - d2x * ((e + ((0 : ℕ) : ℤ) * d2y) / d2x)) = (((nx, ny), e) :
        ((ℤ × ℤ) × ℤ)) := by
      simp only [Nat.cast_zero, zero_mul, add_zero, Int.ediv_eq_zero_of_lt he0 he1, mul_zero,
        sub_zero]
    rw [hhead]
    by_cases hfire : d2x ≤ e + d2y
    · rw [if_pos hfire]
      rw [ih (nx + sx) (ny + sy) (e + d2y - d2x) (by rw [hstart]; push_cast; ring)
        (by omega) (by omega)]
      congr 1
      apply List.map_congr_left
      intro k hk
      simp only [Function.comp_apply, Prod.mk.injEq]
      push_cast
      have hq : (e + ((k : ℤ) + 1) * d2y) / d2x = (e + d2y - d2x + (k : ℤ) * d2y) / d2x + 1 := by
        have h1 : e + ((k : ℤ) + 1) * d2y = (e + d2y - d2x + (k : ℤ) * d2y) + 1 * d2x := by ring
        rw [h1, Int.add_mul_ediv_right _ _ hd2x]
      rw [hq]
      refine ⟨⟨by ring, by ring⟩, by ring⟩
    · rw [if_neg hfire]
      rw [ih (nx + sx) ny (e + d2y) (by rw [hstart]; push_cast; ring) (by omega) (by omega)]
      congr 1
      apply List.map_congr_left
      intro k hk
      simp only [Function.comp_apply, Prod.mk.injEq]
      push_cast
      have h1 : e + ((k : ℤ) + 1) * d2y = (e + d2y) + (k : ℤ) * d2y := by ring
      rw [h1]
      refine ⟨⟨by ring, by ring⟩, by ring⟩

lemma lineLoopX_succ (startX sx sy d2x d2y : ℤ) (fuel : ℕ) (nx ny e : ℤ) :
    lineLoopX startX sx sy d2x d2y (fuel + 1) (nx, ny) e =
      (nx, ny) ::
        (if nx = startX then []
         else if d2x ≤ e + d2y then
           lineLoopX startX sx sy d2x d2y fuel (nx + sx, ny + sy) (e + d2y - d2x)
         else lineLoopX startX sx sy d2x d2y fuel (nx + sx, ny) (e + d2y)) := rfl

lemma lineLoopY_succ (startY sx sy d2x d2y : ℤ) (fuel : ℕ) (nx ny e : ℤ) :
    lineLoopY startY sx sy d2x d2y (fuel + 1) (nx, ny) e =
      (nx, ny) ::
        (if ny = startY then []
         else if d2y ≤ e + d2x then
           lineLoopY startY sx sy d2x d2y fuel (nx + sx, ny + sy) (e + d2x - d2y)
         else lineLoopY startY sx sy d2x d2y fuel (nx, ny + sy) (e + d2x)) := rfl

lemma lineStepsY_succ (startY sx sy d2x d2y : ℤ) (fuel : ℕ) (nx ny e : ℤ) :
    lineStepsY startY sx sy d2x d2y (fuel + 1) (nx, ny) e =
      ((nx, ny), e) ::
        (if ny = startY then []
         else if d2y ≤ e + d2x then
           lineStepsY startY sx sy d2x d2y fuel (nx + sx, ny + sy) (e + d2x - d2y)
         else lineStepsY startY sx sy d2x d2y fuel (nx, ny + sy) (e + d2x)) := rfl

lemma lineLoopX_eq_steps (startX sx sy d2x d2y : ℤ) :
    ∀ (fuel : ℕ) (now : ℤ × ℤ) (e : ℤ),
      lineLoopX startX sx sy d2x d2y fuel now e =
        (lineStepsX startX sx sy d2x d2y fuel now e).map (fun st => st.1) := by
  intro fuel
  induction fuel with
  | zero => intro now e; rfl
  | succ fuel ih =>
    rintro ⟨nx, ny⟩ e
    rw [lineLoopX_succ, lineStepsX_succ, List.map_cons]
    by_cases h : nx = startX
    · rw [if_pos h, if_pos h]; rfl
    · rw [if_neg h, if_neg h]
      by_cases hfire : d2x ≤ e + d2y
      · rw [if_pos hfire, if_pos hfire, ih]
      · rw [if_neg hfire, if_neg hfire, ih]

lemma lineLoopY_eq_steps (startY sx sy d2x d2y : ℤ) :
    ∀ (fuel : ℕ) (now : ℤ × ℤ) (e : ℤ),
      lineLoopY startY sx sy d2x d2y fuel now e =
        (lineStepsY startY sx sy d2x d2y fuel now e).map (fun st => st.1) := by
  intro fuel
  induction fuel with
  | zero => intro now e; rfl
  | succ fuel ih =>
    rintro ⟨nx, ny⟩ e
    rw [lineLoopY_succ, lineStepsY_succ, List.map_cons]
    by_cases h : ny = startY
    · rw [if_pos h, if_pos h]; rfl
    · rw [if_neg h, if_neg h]
      by_cases hfire : d2y ≤ e + d2x
      · rw [if_pos hfire, if_pos hfire, ih]
      · rw [if_neg hfire, if_neg hfire, ih]

lemma lineStepsY_swap (startY sx sy d2x d2y : ℤ) :
    ∀ (fuel : ℕ) (now : ℤ × ℤ) (e : ℤ),
      lineStepsY startY sx sy d2x d2y fuel now e =
        (lineStepsX startY sy sx d2y d2x fuel (now.2, now.1) e).map
          (fun st => ((st.1.2, st.1.1), st.2)) := by
  intro fuel
  induction fuel with
  | zero => intro now e; rfl
  | succ fuel ih =>
    rintro ⟨nx, ny⟩ e
    rw [lineStepsY_succ, lineStepsX_succ, List.map_cons]
    by_cases h : ny = startY
    · rw [if_pos h, if_pos h]; rfl
    · rw [if_neg h, if_neg h]
      by_cases hfire : d2y ≤ e + d2x
      · rw [if_pos hfire, if_pos hfire, ih]
      · rw [if_neg hfire, if_neg hfire, ih]

lemma dist1_eq_zero {a b : ℤ} (h : dist1 a b = 0) : a = b := by
  unfold dist1 at h; by_cases hc : a ≤ b <;> simp [hc] at h <;> omega

lemma renderLine_eq_steps (s ep : ℤ × ℤ) :
    renderLine s ep = (renderLineSteps s ep).map (fun st => st.1) := by
  unfold renderLine renderLineSteps
  by_cases h : dist1 s.2 ep.2 ≤ dist1 s.1 ep.1
  · rw [if_pos h, if_pos h, lineLoopX_eq_steps]
  · rw [if_neg h, if_neg h, lineLoopY_eq_steps]

lemma renderLineSteps_closed_x (s ep : ℤ × ℤ) (hmaj : dist1 s.2 ep.2 ≤ dist1 s.1 ep.1) :
    renderLineSteps s ep =
      (List.range ((dist1 s.1 ep.1).toNat + 1)).map (fun k : ℕ =>
        ((ep.1 + (k : ℤ) * step1 s.1 ep.1,
          ep.2 + step1 s.2 ep.2 *
            ((dist1 s.1 ep.1 + (k : ℤ) * (dist1 s.2 ep.2 * 2)) / (dist1 s.1 ep.1 * 2))),
         dist1 s.1 ep.1 + (k : ℤ) * (dist1 s.2 ep.2 * 2) -
           dist1 s.1 ep.1 * 2 *
             ((dist1 s.1 ep.1 + (k : ℤ) * (dist1 s.2 ep.2 * 2)) / (dist1 s.1 ep.1 * 2)))) := by
  obtain ⟨a, b⟩ := s
  obtain ⟨c, d⟩ := ep
  replace hmaj : dist1 b d ≤ dist1 a c := hmaj
  unfold renderLineSteps
  rw [if_pos hmaj]
  rcases eq_or_lt_of_le (dist1_nonneg a c) with hz | hpos
  · have hac : a = c := dist1_eq_zero hz.symm
    have hbd : b = d := by
      have h0 := dist1_nonneg b d
      exact dist1_eq_zero (by omega)
    simp only [← hz]
    rw [lineStepsX_succ]
    have hca : c = a := hac.symm
    rw [if_pos hca]
    have hr : List.range ((0 : ℤ).toNat + 1) = [0] := rfl
    rw [hr, List.map_cons, List.map_nil]
    simp only [Nat.cast_zero, zero_mul, add_zero, zero_add, mul_zero, Int.zero_ediv,
      Int.ediv_zero, sub_zero, zero_sub, neg_zero]
  · exact lineStepsX_closed a (step1 a c) (step1 b d)
      (dist1 a c * 2) (dist1 b d * 2) (step1_cases a c)
      (by have := dist1_nonneg b d; omega) (by omega)
      ((dist1 a c).toNat) c d (dist1 a c) (start_reach a c) (by omega) (by omega)

lemma renderLineSteps_closed_y (s ep : ℤ × ℤ) (hmaj : ¬ dist1 s.2 ep.2 ≤ dist1 s.1 ep.1) :
    renderLineSteps s ep =
      (List.range ((dist1 s.2 ep.2).toNat + 1)).map (fun k : ℕ =>
        ((ep.1 + step1 s.1 ep.1 *
            ((dist1 s.2 ep.2 + (k : ℤ) * (dist1 s.1 ep.1 * 2)) / (dist1 s.2 ep.2 * 2)),
          ep.2 + (k : ℤ) * step1 s.2 ep.2),
         dist1 s.2 ep.2 + (k : ℤ) * (dist1 s.1 ep.1 * 2) -
           dist1 s.2 ep.2 * 2 *
             ((dist1 s.2 ep.2 + (k : ℤ) * (dist1 s.1 ep.1 * 2)) / (dist1 s.2 ep.2 * 2)))) := by
  obtain ⟨a, b⟩ := s
  obtain ⟨c, d⟩ := ep
  replace hmaj : ¬ dist1 b d ≤ dist1 a c := hmaj
  unfold renderLineSteps
  rw [if_neg hmaj]
  rw [lineStepsY_swap]
  have hpos : 0 < dist1 b d := by have := dist1_nonneg a c; omega
  rw [lineStepsX_closed b (step1 b d) (step1 a c)
      (dist1 b d * 2) (dist1 a c * 2) (step1_cases b d)
      (by have := dist1_nonneg a c; omega) (by omega)
      ((dist1 b d).toNat) d c (dist1 b d) (start_reach b d) (by omega) (by omega)]
  rw [List.map_map]
  rfl

lemma renderLine_closed_x (s ep : ℤ × ℤ) (hmaj : dist1 s.2 ep.2 ≤ dist1 s.1 ep.1) :
    renderLine s ep =
      (List.range ((dist1 s.1 ep.1).toNat + 1)).map (fun k : ℕ =>
        (ep.1 + (k : ℤ) * step1 s.1 ep.1,
         ep.2 + step1 s.2 ep.2 *
           ((dist1 s.1 ep.1 + (k : ℤ) * (dist1 s.2 ep.2 * 2)) / (dist1 s.1 ep.1 * 2)))) := by
  rw [renderLine_eq_steps, renderLineSteps_closed_x s ep hmaj, List.map_map]
  rfl

lemma renderLine_closed_y (s ep : ℤ × ℤ) (hmaj : ¬ dist1 s.2 ep.2 ≤ dist1 s.1 ep.1) :
    renderLine s ep =
      (List.range ((dist1 s.2 ep.2).toNat + 1)).map (fun k : ℕ =>
        (ep.1 + step1 s.1 ep.1 *
           ((dist1 s.2 ep.2 + (k : ℤ) * (dist1 s.1 ep.1 * 2)) / (dist1 s.2 ep.2 * 2)),
         ep.2 + (k : ℤ) * step1 s.2 ep.2)) := by
  rw [renderLine_eq_steps, renderLineSteps_closed_y s ep hmaj, List.map_map]
  rfl

/-- C1: for every pair of integer endpoints, `renderLine` terminates (it is a
total function whose loop provably reaches its exit: the produced trace has
the full length below, so the fuel bound `dist[major] + 1` is never hit
early), the per-step loop runs exactly `max(dist.x, dist.y) + 1` iterations
(one main-line write per iteration), and so the number of main-line pixel
writes is exactly `max(dist.x, dist.y) + 1`. -/
theorem renderLine_pixel_count (s ep : ℤ × ℤ) :
    (renderLine s ep).length = max (ep.1 - s.1).natAbs (ep.2 - s.2).natAbs + 1 := by
  have h1 := dist1_natAbs s.1 ep.1
  have h2 := dist1_natAbs s.2 ep.2
  by_cases h : dist1 s.2 ep.2 ≤ dist1 s.1 ep.1
  · rw [renderLine_closed_x s ep h, List.length_map, List.length_range]
    omega
  · rw [renderLine_closed_y s ep h, List.length_map, List.length_range]
    omega

lemma step1_swap {a b : ℤ} (h : a ≠ b) : step1 b a = -step1 a b := by
  unfold step1
  rcases lt_or_gt_of_ne h with hlt | hgt
  · rw [if_pos hlt.le, if_neg (not_le.mpr hlt)]; omega
  · rw [if_neg (not_le.mpr hgt), if_pos hgt.le]

lemma self_div_twice (d : ℤ) (hd : 0 ≤ d) : d / (d * 2) = 0 := by
  rcases eq_or_lt_of_le hd with h | h
  · rw [← h]; rfl
  · exact Int.ediv_eq_zero_of_lt hd (by omega)

/-- C2 (counterexample): for `start = (0,0)`, `end = (2,1)` the plain variant
lights `(1,0)` (the run from `(2,1)` toward `(0,0)` resolves the midpoint tie
in its own direction of travel), while the swapped call lights `(1,1)`
instead: the two lit-pixel sets differ, refuting direction-independence. -/
theorem renderLine_swap_cex : ((1 : ℤ), (0 : ℤ)) ∈ renderLine (0, 0) (2, 1) ∧
    ((1 : ℤ), (0 : ℤ)) ∉ renderLine (2, 1) (0, 0) := by decide

/-- C2 (amended): swapping `start` and `end` in the plain variant produces the
point reflection of the original lit-pixel set through `p ↦ start + end - p`
(the same geometric segment traversed from the other end), rather than the
identical set: midpoint ties of the error accumulator are resolved toward the
direction of travel, so the sets themselves can differ. -/
theorem renderLine_swap_reflect (s ep : ℤ × ℤ) :
    renderLine ep s = (renderLine s ep).map
      (fun p => (s.1 + ep.1 - p.1, s.2 + ep.2 - p.2)) := by
  have hd1 := dist1_natAbs s.1 ep.1
  have hd2 := dist1_natAbs s.2 ep.2
  by_cases hmaj : dist1 s.2 ep.2 ≤ dist1 s.1 ep.1
  · have hmaj' : dist1 ep.2 s.2 ≤ dist1 ep.1 s.1 := by
      rw [dist1_comm ep.2 s.2, dist1_comm ep.1 s.1]; exact hmaj
    rw [renderLine_closed_x ep s hmaj', renderLine_closed_x s ep hmaj, List.map_map]
    rw [dist1_comm ep.1 s.1, dist1_comm ep.2 s.2]
    apply List.map_congr_left
    intro k hk
    simp only [Function.comp_apply, Prod.mk.injEq]
    constructor
    · by_cases hx : s.1 = ep.1
      · have hdx : dist1 s.1 ep.1 = 0 := by omega
        have hk0 : k = 0 := by
          have := List.mem_range.mp hk
          omega
        subst hk0
        push_cast
        ring
      · rw [step1_swap hx]
        ring
    · by_cases hy : s.2 = ep.2
      · have hdy : dist1 s.2 ep.2 = 0 := by omega
        rw [hdy]
        simp only [zero_mul, mul_zero, add_zero]
        rw [self_div_twice _ (dist1_nonneg s.1 ep.1)]
        simp only [mul_zero, add_zero]
        omega
      · rw [step1_swap hy]
        ring
  · have hmaj' : ¬ dist1 ep.2 s.2 ≤ dist1 ep.1 s.1 := by
      rw [dist1_comm ep.2 s.2, dist1_comm ep.1 s.1]; exact hmaj
    rw [renderLine_closed_y ep s hmaj', renderLine_closed_y s ep hmaj, List.map_map]
    rw [dist1_comm ep.1 s.1, dist1_comm ep.2 s.2]
    apply List.map_congr_left
    intro k hk
    simp only [Function.comp_apply, Prod.mk.injEq]
    constructor
    · by_cases hx : s.1 = ep.1
      · have hdx : dist1 s.1 ep.1 = 0 := by omega
        rw [hdx]
        simp only [zero_mul, mul_zero, add_zero]
        rw [self_div_twice _ (dist1_nonneg s.2 ep.2)]
        simp only [mul_zero, add_zero]
        omega
      · rw [step1_swap hx]
        ring
    · by_cases hy : s.2 = ep.2
      · have hdy : dist1 s.2 ep.2 = 0 := by omega
        have hk0 : k = 0 := by
          have := List.mem_range.mp hk
          omega
        subst hk0
        push_cast
        ring
      · rw [step1_swap hy]
        ring

/-- C7: for a 45-degree segment the error threshold is crossed on every
iteration, so the minor axis advances together with the major axis at every
step: the run is exactly the diagonal walk from the end point to the start
point, one step per iteration on both axes. -/
theorem renderLine_diag (s ep : ℤ × ℤ)
    (h45 : (ep.1 - s.1).natAbs = (ep.2 - s.2).natAbs)
    (hpos : 0 < (ep.1 - s.1).natAbs) :
    renderLine s ep = (List.range ((ep.1 - s.1).natAbs + 1)).map (fun k : ℕ =>
      (ep.1 + (k : ℤ) * step1 s.1 ep.1, ep.2 + (k : ℤ) * step1 s.2 ep.2)) := by
  have hd1 := dist1_natAbs s.1 ep.1
  have hd2 := dist1_natAbs s.2 ep.2
  have hmaj : dist1 s.2 ep.2 ≤ dist1 s.1 ep.1 := by omega
  rw [renderLine_closed_x s ep hmaj]
  have hrange : (dist1 s.1 ep.1).toNat = (ep.1 - s.1).natAbs := by omega
  rw [hrange]
  apply List.map_congr_left
  intro k hk
  have hD : dist1 s.2 ep.2 = dist1 s.1 ep.1 := by omega
  rw [hD]
  have hne : dist1 s.1 ep.1 * 2 ≠ 0 := by omega
  rw [Int.add_mul_ediv_right _ _ hne, self_div_twice _ (dist1_nonneg s.1 ep.1), zero_add]
  simp only [Prod.mk.injEq]
  exact ⟨trivial, by ring⟩

/-- C7 witness: the concrete 45-degree scenario of the spec:
`start = (0,0)`, `end = (4,4)` lights exactly the five diagonal pixels,
drawn from the end toward the start. -/
theorem renderLine_diag_witness :
    renderLine (0, 0) (4, 4) = [(4, 4), (3, 3), (2, 2), (1, 1), (0, 0)] := by
  have h := renderLine_diag (0, 0) (4, 4) (by decide) (by decide)
  exact h.trans (by decide)

lemma map_range_zip_tail {α : Type} (g : ℕ → α) (n : ℕ) :
    (((List.range (n + 1)).map g).zip (((List.range (n + 1)).map g).tail)) =
      (List.range n).map (fun k => (g k, g (k + 1))) := by
  have htail : ((List.range (n + 1)).map g).tail = (List.range n).map (fun k => g (k + 1)) := by
    rw [List.range_succ_eq_map, List.map_cons, List.tail_cons, List.map_map]
    rfl
  rw [htail]
  conv_lhs => rw [List.range_succ, List.map_append,
    ← List.append_nil ((List.range n).map (fun k => g (k + 1)))]
  rw [List.zip_append (by simp), List.zip_map']
  simp

lemma countP_ne_range (h : ℕ → ℤ) (hmono : ∀ k, h k ≤ h (k + 1))
    (hstep : ∀ k, h (k + 1) ≤ h k + 1) :
    ∀ n, (List.range n).countP (fun k => decide (h k ≠ h (k + 1))) = (h n - h 0).toNat := by
  have h0le : ∀ m, h 0 ≤ h m := by
    intro m
    induction m with
    | zero => exact le_refl _
    | succ m ih => exact le_trans ih (hmono m)
  intro n
  induction n with
  | zero => simp
  | succ n ih =>
    rw [List.range_succ, List.countP_append, ih]
    by_cases heq : h n = h (n + 1)
    · have hfalse : (fun k => decide (h k ≠ h (k + 1))) n = false := by simp [heq]
      rw [List.countP_cons, List.countP_nil, if_neg (by simp [heq])]
      have := h0le n
      omega
    · rw [List.countP_cons, List.countP_nil, if_pos (by simp [heq])]
      have h1 := hmono n
      have h2 := hstep n
      have := h0le n
      omega

lemma mu_mono (D dY : ℤ) (hdx : 0 < D) (hdY0 : 0 ≤ dY) (k : ℕ) :
    (D + (k : ℤ) * (dY * 2)) / (D * 2) ≤ (D + ((k + 1 : ℕ) : ℤ) * (dY * 2)) / (D * 2) := by
  apply Int.ediv_le_ediv (by omega)
  have hx : ((k + 1 : ℕ) : ℤ) * (dY * 2) = (k : ℤ) * (dY * 2) + dY * 2 := by push_cast; ring
  linarith [hx]

lemma mu_step (D dY : ℤ) (hdx : 0 < D) (hmaj : dY ≤ D) (k : ℕ) :
    (D + ((k + 1 : ℕ) : ℤ) * (dY * 2)) / (D * 2) ≤ (D + (k : ℤ) * (dY * 2)) / (D * 2) + 1 := by
  have hne : D * 2 ≠ 0 := by omega
  have h1 : D + ((k + 1 : ℕ) : ℤ) * (dY * 2) ≤ (D + (k : ℤ) * (dY * 2)) + 1 * (D * 2) := by
    have hx : ((k + 1 : ℕ) : ℤ) * (dY * 2) = (k : ℤ) * (dY * 2) + dY * 2 := by push_cast; ring
    linarith [hx]
  calc (D + ((k + 1 : ℕ) : ℤ) * (dY * 2)) / (D * 2)
      ≤ ((D + (k : ℤ) * (dY * 2)) + 1 * (D * 2)) / (D * 2) := Int.ediv_le_ediv (by omega) h1
    _ = (D + (k : ℤ) * (dY * 2)) / (D * 2) + 1 := Int.add_mul_ediv_right _ _ hne

lemma mu_last (D dY : ℤ) (hdx : 0 < D) :
    (D + ((D.toNat : ℕ) : ℤ) * (dY * 2)) / (D * 2) = dY := by
  have hne : D * 2 ≠ 0 := by omega
  rw [Int.toNat_of_nonneg (le_of_lt hdx)]
  rw [show D + D * (dY * 2) = D + dY * (D * 2) from by ring,
    Int.add_mul_ediv_right _ _ hne, self_div_twice _ (le_of_lt hdx), zero_add]

/-- C10: when the major-axis distance is positive, the error accumulator
satisfies `0 ≤ e < dist2[major]` at the head of every loop iteration, the
number of iterations at which both coordinates change (i.e. the minor axis
advances) over the whole run is exactly `dist[minor]`, and the final pixel is
drawn exactly at `startPos`. -/
theorem renderLine_error_invariant (s ep : ℤ × ℤ)
    (hp : 0 < max (ep.1 - s.1).natAbs (ep.2 - s.2).natAbs) :
    (∀ st ∈ renderLineSteps s ep,
        0 ≤ st.2 ∧ st.2 < (max (ep.1 - s.1).natAbs (ep.2 - s.2).natAbs : ℤ) * 2) ∧
    ((renderLine s ep).zip (renderLine s ep).tail).countP
        (fun pq => decide (pq.1.1 ≠ pq.2.1 ∧ pq.1.2 ≠ pq.2.2)) =
      min (ep.1 - s.1).natAbs (ep.2 - s.2).natAbs ∧
    (renderLine s ep).getLast? = some s := by
  have hd1 := dist1_natAbs s.1 ep.1
  have hd2 := dist1_natAbs s.2 ep.2
  by_cases hmaj : dist1 s.2 ep.2 ≤ dist1 s.1 ep.1
  · have hdx : 0 < dist1 s.1 ep.1 := by omega
    have hdY0 : 0 ≤ dist1 s.2 ep.2 := dist1_nonneg s.2 ep.2
    have hne : dist1 s.1 ep.1 * 2 ≠ 0 := by omega
    have hmaxz : max ((ep.1 - s.1).natAbs : ℤ) ((ep.2 - s.2).natAbs : ℤ) =
        dist1 s.1 ep.1 := by omega
    have hsx := step1_cases s.1 ep.1
    have hsy := step1_cases s.2 ep.2
    refine ⟨?_, ?_, ?_⟩
    · intro st hst
      rw [renderLineSteps_closed_x s ep hmaj] at hst
      obtain ⟨k, hk, rfl⟩ := List.mem_map.mp hst
      dsimp only
      rw [← Int.emod_def, hmaxz]
      exact ⟨Int.emod_nonneg _ hne, Int.emod_lt_of_pos _ (by omega)⟩
    · rw [renderLine_closed_x s ep hmaj, map_range_zip_tail, List.countP_map]
      have hfun : ((fun pq : (ℤ × ℤ) × ℤ × ℤ => decide (pq.1.1 ≠ pq.2.1 ∧ pq.1.2 ≠ pq.2.2)) ∘
          (fun k : ℕ =>
            ((ep.1 + (k : ℤ) * step1 s.1 ep.1,
              ep.2 + step1 s.2 ep.2 *
                ((dist1 s.1 ep.1 + (k : ℤ) * (dist1 s.2 ep.2 * 2)) / (dist1 s.1 ep.1 * 2))),
             (ep.1 + ((k + 1 : ℕ) : ℤ) * step1 s.1 ep.1,
              ep.2 + step1 s.2 ep.2 *
                ((dist1 s.1 ep.1 + ((k + 1 : ℕ) : ℤ) * (dist1 s.2 ep.2 * 2)) /
                  (dist1 s.1 ep.1 * 2)))))) =
          (fun k : ℕ =>
            decide ((dist1 s.1 ep.1 + (k : ℤ) * (dist1 s.2 ep.2 * 2)) / (dist1 s.1 ep.1 * 2) ≠
              (dist1 s.1 ep.1 + ((k + 1 : ℕ) : ℤ) * (dist1 s.2 ep.2 * 2)) /
                (dist1 s.1 ep.1 * 2))) := by
        funext k
        simp only [Function.comp_apply]
        rw [decide_eq_decide]
        generalize (dist1 s.1 ep.1 + (k : ℤ) * (dist1 s.2 ep.2 * 2)) / (dist1 s.1 ep.1 * 2) = M0
        generalize (dist1 s.1 ep.1 + ((k + 1 : ℕ) : ℤ) * (dist1 s.2 ep.2 * 2)) /
          (dist1 s.1 ep.1 * 2) = M1
        constructor
        · rintro ⟨h1, h2⟩ heq
          exact h2 (by rw [heq])
        · intro hne'
          constructor
          · push_cast
            rcases hsx with h | h <;> rw [h] <;> intro hc <;> omega
          · intro hc
            apply hne'
            rcases hsy with h | h <;> rw [h] at hc <;> omega
      rw [hfun]
      rw [countP_ne_range _ (mu_mono _ _ hdx hdY0) (mu_step _ _ hdx hmaj)]
      rw [mu_last _ _ hdx]
      have hmu0 : (dist1 s.1 ep.1 + ((0 : ℕ) : ℤ) * (dist1 s.2 ep.2 * 2)) /
          (dist1 s.1 ep.1 * 2) = 0 := by
        rw [show (dist1 s.1 ep.1 + ((0 : ℕ) : ℤ) * (dist1 s.2 ep.2 * 2)) =
          dist1 s.1 ep.1 from by push_cast; ring]
        exact self_div_twice _ (le_of_lt hdx)
      rw [hmu0]
      omega
    · rw [renderLine_closed_x s ep hmaj, List.range_succ, List.map_append,
        List.map_cons, List.map_nil, List.getLast?_concat]
      have h1 := start_reach s.1 ep.1
      have h2 := start_reach s.2 ep.2
      rw [Int.toNat_of_nonneg (dist1_nonneg s.2 ep.2)] at h2
      rw [mu_last _ _ hdx]
      congr 1
      rw [Prod.ext_iff]
      exact ⟨h1.symm, by linear_combination -h2⟩
  · have hdy : 0 < dist1 s.2 ep.2 := by omega
    have hdX0 : 0 ≤ dist1 s.1 ep.1 := dist1_nonneg s.1 ep.1
    have hmaj' : dist1 s.1 ep.1 ≤ dist1 s.2 ep.2 := by omega
    have hne : dist1 s.2 ep.2 * 2 ≠ 0 := by omega
    have hmaxz : max ((ep.1 - s.1).natAbs : ℤ) ((ep.2 - s.2).natAbs : ℤ) =
        dist1 s.2 ep.2 := by omega
    have hsx := step1_cases s.1 ep.1
    have hsy := step1_cases s.2 ep.2
    refine ⟨?_, ?_, ?_⟩
    · intro st hst
      rw [renderLineSteps_closed_y s ep hmaj] at hst
      obtain ⟨k, hk, rfl⟩ := List.mem_map.mp hst
      dsimp only
      rw [← Int.emod_def, hmaxz]
      exact ⟨Int.emod_nonneg _ hne, Int.emod_lt_of_pos _ (by omega)⟩
    · rw [renderLine_closed_y s ep hmaj, map_range_zip_tail, List.countP_map]
      have hfun : ((fun pq : (ℤ × ℤ) × ℤ × ℤ => decide (pq.1.1 ≠ pq.2.1 ∧ pq.1.2 ≠ pq.2.2)) ∘
          (fun k : ℕ =>
            ((ep.1 + step1 s.1 ep.1 *
                ((dist1 s.2 ep.2 + (k : ℤ) * (dist1 s.1 ep.1 * 2)) / (dist1 s.2 ep.2 * 2)),
              ep.2 + (k : ℤ) * step1 s.2 ep.2),
             (ep.1 + step1 s.1 ep.1 *
                ((dist1 s.2 ep.2 + ((k + 1 : ℕ) : ℤ) * (dist1 s.1 ep.1 * 2)) /
                  (dist1 s.2 ep.2 * 2)),
              ep.2 + ((k + 1 : ℕ) : ℤ) * step1 s.2 ep.2)))) =
          (fun k : ℕ =>
            decide ((dist1 s.2 ep.2 + (k : ℤ) * (dist1 s.1 ep.1 * 2)) / (dist1 s.2 ep.2 * 2) ≠
              (dist1 s.2 ep.2 + ((k + 1 : ℕ) : ℤ) * (dist1 s.1 ep.1 * 2)) /
                (dist1 s.2 ep.2 * 2))) := by
        funext k
        simp only [Function.comp_apply]
        rw [decide_eq_decide]
        generalize (dist1 s.2 ep.2 + (k : ℤ) * (dist1 s.1 ep.1 * 2)) / (dist1 s.2 ep.2 * 2) = M0
        generalize (dist1 s.2 ep.2 + ((k + 1 : ℕ) : ℤ) * (dist1 s.1 ep.1 * 2)) /
          (dist1 s.2 ep.2 * 2) = M1
        constructor
        · rintro ⟨h1, h2⟩ heq
          exact h1 (by rw [heq])
        · intro hne'
          constructor
          · intro hc
            apply hne'
            rcases hsx with h | h <;> rw [h] at hc <;> omega
          · push_cast
            rcases hsy with h | h <;> rw [h] <;> intro hc <;> omega
      rw [hfun]
      rw [countP_ne_range _ (mu_mono _ _ hdy hdX0) (mu_step _ _ hdy hmaj')]
      rw [mu_last _ _ hdy]
      have hmu0 : (dist1 s.2 ep.2 + ((0 : ℕ) : ℤ) * (dist1 s.1 ep.1 * 2)) /
          (dist1 s.2 ep.2 * 2) = 0 := by
        rw [show (dist1 s.2 ep.2 + ((0 : ℕ) : ℤ) * (dist1 s.1 ep.1 * 2)) =
          dist1 s.2 ep.2 from by push_cast; ring]
        exact self_div_twice _ (le_of_lt hdy)
      rw [hmu0]
      omega
    · rw [renderLine_closed_y s ep hmaj, List.range_succ, List.map_append,
        List.map_cons, List.map_nil, List.getLast?_concat]
      have h1 := start_reach s.1 ep.1
      have h2 := start_reach s.2 ep.2
      rw [Int.toNat_of_nonneg (dist1_nonneg s.1 ep.1)] at h1
      rw [mu_last _ _ hdy]
      congr 1
      rw [Prod.ext_iff]
      exact ⟨by linear_combination -h1, h2.symm⟩

/-- C10 witness: a concrete instantiation at `start = (0,0)`, `end = (5,3)`. -/
theorem renderLine_error_invariant_witness :
    (∀ st ∈ renderLineSteps (0, 0) (5, 3),
        0 ≤ st.2 ∧ st.2 < (max ((5 : ℤ) - 0).natAbs ((3 : ℤ) - 0).natAbs : ℤ) * 2) ∧
    ((renderLine (0, 0) (5, 3)).zip (renderLine (0, 0) (5, 3)).tail).countP
        (fun pq => decide (pq.1.1 ≠ pq.2.1 ∧ pq.1.2 ≠ pq.2.2)) =
      min ((5 : ℤ) - 0).natAbs ((3 : ℤ) - 0).natAbs ∧
    (renderLine (0, 0) (5, 3)).getLast? = some (0, 0) :=
  renderLine_error_invariant (0, 0) (5, 3) (by decide)

lemma aaLoopX_succ (startX sx sy d2x d2y : ℤ) (col aaCol : ColorF) (fuel : ℕ) (nx ny e : ℤ) :
    aaLoopX startX sx sy d2x d2y col aaCol (fuel + 1) (nx, ny) e =
      Write.mk (nx, ny) col ::
        (if nx = startX then []
         else if d2x ≤ e + d2y then
           Write.mk (nx + sx, ny) aaCol :: Write.mk (nx + sx - sx, ny + sy) aaCol ::
             aaLoopX startX sx sy d2x d2y col aaCol fuel (nx + sx, ny + sy) (e + d2y - d2x)
         else aaLoopX startX sx sy d2x d2y col aaCol fuel (nx + sx, ny) (e + d2y)) := rfl

lemma aaLoopY_succ (startY sx sy d2x d2y : ℤ) (col aaCol : ColorF) (fuel : ℕ) (nx ny e : ℤ) :
    aaLoopY startY sx sy d2x d2y col aaCol (fuel + 1) (nx, ny) e =
      Write.mk (nx, ny) col ::
        (if ny = startY then []
         else if d2y ≤ e + d2x then
           Write.mk (nx, ny + sy) aaCol :: Write.mk (nx + sx, ny + sy - sy) aaCol ::
             aaLoopY startY sx sy d2x d2y col aaCol fuel (nx + sx, ny + sy) (e + d2x - d2y)
         else aaLoopY startY sx sy d2x d2y col aaCol fuel (nx, ny + sy) (e + d2x)) := rfl

lemma aaWeaveX_cons₂ (col aaCol : ColorF) (p q : ℤ × ℤ) (rest : List (ℤ × ℤ)) :
    aaWeaveX col aaCol (p :: q :: rest) =
      (if p.2 = q.2 then Write.mk p col :: aaWeaveX col aaCol (q :: rest)
       else
         Write.mk p col :: Write.mk (q.1, p.2) aaCol :: Write.mk (p.1, q.2) aaCol ::
           aaWeaveX col aaCol (q :: rest)) := rfl

lemma aaWeaveY_cons₂ (col aaCol : ColorF) (p q : ℤ × ℤ) (rest : List (ℤ × ℤ)) :
    aaWeaveY col aaCol (p :: q :: rest) =
      (if p.1 = q.1 then Write.mk p col :: aaWeaveY col aaCol (q :: rest)
       else
         Write.mk p col :: Write.mk (p.1, q.2) aaCol :: Write.mk (q.1, p.2) aaCol ::
           aaWeaveY col aaCol (q :: rest)) := rfl

lemma aaLoopX_weave (startX sx sy d2x d2y : ℤ) (col aaCol : ColorF)
    (hsx : sx = 1 ∨ sx = -1) (hsy : sy = 1 ∨ sy = -1) :
    ∀ (n : ℕ) (nx ny e : ℤ), startX = nx + n * sx →
      aaLoopX startX sx sy d2x d2y col aaCol (n + 1) (nx, ny) e =
        aaWeaveX col aaCol (lineLoopX startX sx sy d2x d2y (n + 1) (nx, ny) e) := by
  intro n
  induction n with
  | zero =>
    intro nx ny e hstart
    have hx : nx = startX := by omega
    rw [aaLoopX_succ, lineLoopX_succ, if_pos hx, if_pos hx]
    rfl
  | succ n ih =>
    intro nx ny e hstart
    have hx : ¬ nx = startX := by rcases hsx with h | h <;> subst h <;> omega
    rw [aaLoopX_succ, lineLoopX_succ, if_neg hx, if_neg hx]
    by_cases hfire : d2x ≤ e + d2y
    · rw [if_pos hfire, if_pos hfire]
      rw [lineLoopX_succ, aaWeaveX_cons₂]
      have hy : ¬ ny = ny + sy := by rcases hsy with h | h <;> subst h <;> omega
      rw [if_neg hy]
      rw [← lineLoopX_succ]
      rw [← ih (nx + sx) (ny + sy) (e + d2y - d2x) (by rw [hstart]; push_cast; ring)]
      have hc : nx + sx - sx = nx := by ring
      rw [hc]
    · rw [if_neg hfire, if_neg hfire]
      rw [lineLoopX_succ, aaWeaveX_cons₂]
      rw [if_pos rfl]
      rw [← lineLoopX_succ]
      rw [← ih (nx + sx) ny (e + d2y) (by rw [hstart]; push_cast; ring)]

lemma aaLoopY_weave (startY sx sy d2x d2y : ℤ) (col aaCol : ColorF)
    (hsx : sx = 1 ∨ sx = -1) (hsy : sy = 1 ∨ sy = -1) :
    ∀ (n : ℕ) (nx ny e : ℤ), startY = ny + n * sy →
      aaLoopY startY sx sy d2x d2y col aaCol (n + 1) (nx, ny) e =
        aaWeaveY col aaCol (lineLoopY startY sx sy d2x d2y (n + 1) (nx, ny) e) := by
  intro n
  induction n with
  | zero =>
    intro nx ny e hstart
    have hy : ny = startY := by omega
    rw [aaLoopY_succ, lineLoopY_succ, if_pos hy, if_pos hy]
    rfl
  | succ n ih =>
    intro nx ny e hstart
    have hy : ¬ ny = startY := by rcases hsy with h | h <;> subst h <;> omega
    rw [aaLoopY_succ, lineLoopY_succ, if_neg hy, if_neg hy]
    by_cases hfire : d2y ≤ e + d2x
    · rw [if_pos hfire, if_pos hfire]
      rw [lineLoopY_succ, aaWeaveY_cons₂]
      have hx : ¬ nx = nx + sx := by rcases hsx with h | h <;> subst h <;> omega
      rw [if_neg hx]
      rw [← lineLoopY_succ]
      rw [← ih (nx + sx) (ny + sy) (e + d2x - d2y) (by rw [hstart]; push_cast; ring)]
      have hc : ny + sy - sy = ny := by ring
      rw [hc]
    · rw [if_neg hfire, if_neg hfire]
      rw [lineLoopY_succ, aaWeaveY_cons₂]
      rw [if_pos rfl]
      rw [← lineLoopY_succ]
      rw [← ih nx (ny + sy) (e + d2x) (by rw [hstart]; push_cast; ring)]

lemma renderLineAA_eq_weave (s ep : ℤ × ℤ) (col : ColorF) (rate : ℚ) :
    renderLineAA s ep col rate =
      (if dist1 s.2 ep.2 ≤ dist1 s.1 ep.1 then
        aaWeaveX col ⟨col.r, col.g, col.b, col.a * clamp01 rate⟩ (renderLine s ep)
       else
        aaWeaveY col ⟨col.r, col.g, col.b, col.a * clamp01 rate⟩ (renderLine s ep)) := by
  obtain ⟨a, b⟩ := s
  obtain ⟨c, d⟩ := ep
  unfold renderLineAA renderLine
  by_cases hmaj : dist1 b d ≤ dist1 a c
  · rw [if_pos hmaj, if_pos hmaj, if_pos hmaj]
    exact aaLoopX_weave a (step1 a c) (step1 b d) (dist1 a c * 2) (dist1 b d * 2) col _
      (step1_cases a c) (step1_cases b d) ((dist1 a c).toNat) c d (dist1 a c) (start_reach a c)
  · rw [if_neg hmaj, if_neg hmaj, if_neg hmaj]
    exact aaLoopY_weave b (step1 a c) (step1 b d) (dist1 a c * 2) (dist1 b d * 2) col _
      (step1_cases a c) (step1_cases b d) ((dist1 b d).toNat) c d (dist1 b d) (start_reach b d)

/-- C6: every firing of the `e >= dist2[major]` branch of `renderLineAA`
emits exactly two extra pixels, at the two diagonal neighbours of the corner
formed by the simultaneous major+minor move — `(q.1, p.2)` (post-major-step
position, minor not yet advanced) and `(p.1, q.2)` (pre-major-step position,
minor already advanced) for consecutive main pixels `p, q` — and no other AA
pixels are emitted; both use the base color with alpha scaled by
`aaColorRate` clamped to `[0,1]`.  (`aaWeaveX`/`aaWeaveY` insert exactly
those two writes, in the per-branch order of the source, between consecutive
main pixels that differ on both axes, and nothing else.) -/
theorem renderLineAA_corner_pixels (s ep : ℤ × ℤ) (col : ColorF) (rate : ℚ) :
    renderLineAA s ep col rate =
      (if dist1 s.2 ep.2 ≤ dist1 s.1 ep.1 then
        aaWeaveX col ⟨col.r, col.g, col.b, col.a * clamp01 rate⟩ (renderLine s ep)
       else
        aaWeaveY col ⟨col.r, col.g, col.b, col.a * clamp01 rate⟩ (renderLine s ep)) :=
  renderLineAA_eq_weave s ep col rate

lemma aaLoopX_nofire (startX sx sy d2x d2y : ℤ) (col aaCol : ColorF) (hzero : d2y = 0) :
    ∀ (fuel : ℕ) (now : ℤ × ℤ) (e : ℤ), e < d2x →
      aaLoopX startX sx sy d2x d2y col aaCol fuel now e =
        (lineLoopX startX sx sy d2x d2y fuel now e).map (fun p => Write.mk p col) := by
  intro fuel
  induction fuel with
  | zero => intro now e he; rfl
  | succ fuel ih =>
    rintro ⟨nx, ny⟩ e he
    rw [aaLoopX_succ, lineLoopX_succ, List.map_cons]
    by_cases hx : nx = startX
    · rw [if_pos hx, if_pos hx]; rfl
    · rw [if_neg hx, if_neg hx]
      have hnofire : ¬ d2x ≤ e + d2y := by omega
      rw [if_neg hnofire, if_neg hnofire, ih _ _ (by omega)]

lemma aaLoopY_nofire (startY sx sy d2x d2y : ℤ) (col aaCol : ColorF) (hzero : d2x = 0) :
    ∀ (fuel : ℕ) (now : ℤ × ℤ) (e : ℤ), e < d2y →
      aaLoopY startY sx sy d2x d2y col aaCol fuel now e =
        (lineLoopY startY sx sy d2x d2y fuel now e).map (fun p => Write.mk p col) := by
  intro fuel
  induction fuel with
  | zero => intro now e he; rfl
  | succ fuel ih =>
    rintro ⟨nx, ny⟩ e he
    rw [aaLoopY_succ, lineLoopY_succ, List.map_cons]
    by_cases hy : ny = startY
    · rw [if_pos hy, if_pos hy]; rfl
    · rw [if_neg hy, if_neg hy]
      have hnofire : ¬ d2y ≤ e + d2x := by omega
      rw [if_neg hnofire, if_neg hnofire, ih _ _ (by omega)]

/-- C8: for every axis-aligned segment the minor distance is zero, so the
error accumulator stays strictly below the threshold forever: the
`e >= dist2[major]` branch never fires, no minor-axis steps occur, and no AA
pixels are emitted — `renderLineAA` writes exactly the plain line, every
pixel in the unmodified base color, whatever `aaColorRate` is. -/
theorem renderLineAA_axis_aligned (s ep : ℤ × ℤ) (col : ColorF) (rate : ℚ)
    (haxis : s.2 = ep.2 ∨ s.1 = ep.1) :
    renderLineAA s ep col rate = (renderLine s ep).map (fun p => Write.mk p col) := by
  obtain ⟨a, b⟩ := s
  obtain ⟨c, d⟩ := ep
  have hd1 := dist1_natAbs a c
  have hd2 := dist1_natAbs b d
  unfold renderLineAA renderLine
  rcases haxis with h | h
  · replace h : b = d := h
    have hdy : dist1 b d = 0 := by omega
    have hmaj : dist1 b d ≤ dist1 a c := by have := dist1_nonneg a c; omega
    rw [if_pos hmaj, if_pos hmaj]
    rcases eq_or_lt_of_le (dist1_nonneg a c) with hz | hpos
    · have hca : c = a := by omega
      rw [aaLoopX_succ, lineLoopX_succ, if_pos hca, if_pos hca]
      rfl
    · exact aaLoopX_nofire a (step1 a c) (step1 b d) (dist1 a c * 2) (dist1 b d * 2)
        col _ (by omega) _ (c, d) (dist1 a c) (by omega)
  · replace h : a = c := h
    have hdx : dist1 a c = 0 := by omega
    rcases eq_or_lt_of_le (dist1_nonneg b d) with hz | hpos
    · have hmaj : dist1 b d ≤ dist1 a c := by omega
      rw [if_pos hmaj, if_pos hmaj]
      have hca : c = a := by omega
      rw [aaLoopX_succ, lineLoopX_succ, if_pos hca, if_pos hca]
      rfl
    · have hmaj : ¬ dist1 b d ≤ dist1 a c := by omega
      rw [if_neg hmaj, if_neg hmaj]
      exact aaLoopY_nofire b (step1 a c) (step1 b d) (dist1 a c * 2) (dist1 b d * 2)
        col _ (by omega) _ (c, d) (dist1 b d) (by omega)

/-- C8 witness: the spec's concrete horizontal scenario `start = (1,1)`,
`end = (8,1)`: the AA variant writes exactly the plain pixels in the base
color. -/
theorem renderLineAA_axis_aligned_witness :
    renderLineAA (1, 1) (8, 1) ⟨1, 1, 1, 1⟩ (3 / 10) =
      (renderLine (1, 1) (8, 1)).map (fun p => Write.mk p ⟨1, 1, 1, 1⟩) :=
  renderLineAA_axis_aligned (1, 1) (8, 1) ⟨1, 1, 1, 1⟩ (3 / 10) (Or.inl rfl)

lemma renderLine_mem_box (s ep : ℤ × ℤ) :
    ∀ p ∈ renderLine s ep,
      min s.1 ep.1 ≤ p.1 ∧ p.1 ≤ max s.1 ep.1 ∧ min s.2 ep.2 ≤ p.2 ∧ p.2 ≤ max s.2 ep.2 := by
  have hd1 := dist1_natAbs s.1 ep.1
  have hd2 := dist1_natAbs s.2 ep.2
  have hs1 := start_reach s.1 ep.1
  have hs2 := start_reach s.2 ep.2
  rw [Int.toNat_of_nonneg (dist1_nonneg s.1 ep.1)] at hs1
  rw [Int.toNat_of_nonneg (dist1_nonneg s.2 ep.2)] at hs2
  have hsx := step1_cases s.1 ep.1
  have hsy := step1_cases s.2 ep.2
  have hdx0 : (0 : ℤ) ≤ dist1 s.1 ep.1 := dist1_nonneg s.1 ep.1
  have hdy0 : (0 : ℤ) ≤ dist1 s.2 ep.2 := dist1_nonneg s.2 ep.2
  by_cases hmaj : dist1 s.2 ep.2 ≤ dist1 s.1 ep.1
  · intro p hp
    rw [renderLine_closed_x s ep hmaj] at hp
    obtain ⟨k, hk, rfl⟩ := List.mem_map.mp hp
    rw [List.mem_range] at hk
    dsimp only
    have hkle : (k : ℤ) ≤ dist1 s.1 ep.1 := by omega
    have hk0 : (0 : ℤ) ≤ (k : ℤ) := Int.natCast_nonneg k
    have hmu0 : 0 ≤ (dist1 s.1 ep.1 + (k : ℤ) * (dist1 s.2 ep.2 * 2)) / (dist1 s.1 ep.1 * 2) :=
      Int.ediv_nonneg (add_nonneg hdx0 (mul_nonneg hk0 (by linarith))) (by linarith)
    have hmu1 : (dist1 s.1 ep.1 + (k : ℤ) * (dist1 s.2 ep.2 * 2)) / (dist1 s.1 ep.1 * 2) ≤ dist1 s.2 ep.2 := by
      rcases eq_or_lt_of_le hdx0 with hz | hpos
      · have hdz : dist1 s.2 ep.2 = 0 := by omega
        rw [← hz, hdz]
        simp
      · by_contra hcon
        push_neg at hcon
        have hle : dist1 s.2 ep.2 + 1 ≤ (dist1 s.1 ep.1 + (k : ℤ) * (dist1 s.2 ep.2 * 2)) /
            (dist1 s.1 ep.1 * 2) := hcon
        rw [Int.le_ediv_iff_mul_le (by linarith)] at hle
        have hkd : (k : ℤ) * (dist1 s.2 ep.2 * 2) ≤ dist1 s.1 ep.1 * (dist1 s.2 ep.2 * 2) :=
          mul_le_mul_of_nonneg_right hkle (by linarith)
        have hexp : (dist1 s.2 ep.2 + 1) * (dist1 s.1 ep.1 * 2) =
            dist1 s.1 ep.1 * (dist1 s.2 ep.2 * 2) + dist1 s.1 ep.1 * 2 := by ring
        linarith
    revert hmu0 hmu1
    generalize (dist1 s.1 ep.1 + (k : ℤ) * (dist1 s.2 ep.2 * 2)) / (dist1 s.1 ep.1 * 2) = M
    intro hmu0 hmu1
    rcases hsx with h1 | h1 <;> rcases hsy with h2 | h2 <;>
      rw [h1] at hs1 <;> rw [h2] at hs2 <;> rw [h1, h2] <;> omega
  · intro p hp
    rw [renderLine_closed_y s ep hmaj] at hp
    obtain ⟨k, hk, rfl⟩ := List.mem_map.mp hp
    rw [List.mem_range] at hk
    dsimp only
    have hkle : (k : ℤ) ≤ dist1 s.2 ep.2 := by omega
    have hk0 : (0 : ℤ) ≤ (k : ℤ) := Int.natCast_nonneg k
    have hmu0 : 0 ≤ (dist1 s.2 ep.2 + (k : ℤ) * (dist1 s.1 ep.1 * 2)) / (dist1 s.2 ep.2 * 2) :=
      Int.ediv_nonneg (add_nonneg hdy0 (mul_nonneg hk0 (by linarith))) (by linarith)
    have hmu1 : (dist1 s.2 ep.2 + (k : ℤ) * (dist1 s.1 ep.1 * 2)) / (dist1 s.2 ep.2 * 2) ≤ dist1 s.1 ep.1 := by
      by_contra hcon
      push_neg at hcon
      have hle : dist1 s.1 ep.1 + 1 ≤ (dist1 s.2 ep.2 + (k : ℤ) * (dist1 s.1 ep.1 * 2)) /
          (dist1 s.2 ep.2 * 2) := hcon
      rw [Int.le_ediv_iff_mul_le (by omega)] at hle
      have hkd : (k : ℤ) * (dist1 s.1 ep.1 * 2) ≤ dist1 s.2 ep.2 * (dist1 s.1 ep.1 * 2) :=
        mul_le_mul_of_nonneg_right hkle (by linarith)
      have hexp : (dist1 s.1 ep.1 + 1) * (dist1 s.2 ep.2 * 2) =
          dist1 s.2 ep.2 * (dist1 s.1 ep.1 * 2) + dist1 s.2 ep.2 * 2 := by ring
      linarith
    revert hmu0 hmu1
    generalize (dist1 s.2 ep.2 + (k : ℤ) * (dist1 s.1 ep.1 * 2)) / (dist1 s.2 ep.2 * 2) = M
    intro hmu0 hmu1
    rcases hsx with h1 | h1 <;> rcases hsy with h2 | h2 <;>
      rw [h1] at hs1 <;> rw [h2] at hs2 <;> rw [h1, h2] <;> omega

lemma aaWeaveX_box (col aaCol : ColorF) (P Q : ℤ → Prop) :
    ∀ (l : List (ℤ × ℤ)), (∀ p ∈ l, P p.1 ∧ Q p.2) →
      ∀ w ∈ aaWeaveX col aaCol l, P w.pos.1 ∧ Q w.pos.2 := by
  intro l
  induction l with
  | nil => intro h w hw; cases hw
  | cons p tail ih =>
    intro h w hw
    cases tail with
    | nil =>
      rw [show aaWeaveX col aaCol [p] = [Write.mk p col] from rfl] at hw
      rw [List.mem_singleton] at hw
      subst hw
      exact h p (by simp)
    | cons q rest =>
      have hq : ∀ x ∈ q :: rest, P x.1 ∧ Q x.2 :=
        fun x hx => h x (List.mem_cons_of_mem p hx)
      rw [aaWeaveX_cons₂] at hw
      by_cases hpq : p.2 = q.2
      · rw [if_pos hpq] at hw
        rcases List.mem_cons.mp hw with rfl | hw'
        · exact h p (by simp)
        · exact ih hq w hw'
      · rw [if_neg hpq] at hw
        rcases List.mem_cons.mp hw with rfl | hw'
        · exact h p (by simp)
        rcases List.mem_cons.mp hw' with rfl | hw''
        · exact ⟨(hq q (by simp)).1, (h p (by simp)).2⟩
        rcases List.mem_cons.mp hw'' with rfl | hw'''
        · exact ⟨(h p (by simp)).1, (hq q (by simp)).2⟩
        · exact ih hq w hw'''

lemma aaWeaveY_box (col aaCol : ColorF) (P Q : ℤ → Prop) :
    ∀ (l : List (ℤ × ℤ)), (∀ p ∈ l, P p.1 ∧ Q p.2) →
      ∀ w ∈ aaWeaveY col aaCol l, P w.pos.1 ∧ Q w.pos.2 := by
  intro l
  induction l with
  | nil => intro h w hw; cases hw
  | cons p tail ih =>
    intro h w hw
    cases tail with
    | nil =>
      rw [show aaWeaveY col aaCol [p] = [Write.mk p col] from rfl] at hw
      rw [List.mem_singleton] at hw
      subst hw
      exact h p (by simp)
    | cons q rest =>
      have hq : ∀ x ∈ q :: rest, P x.1 ∧ Q x.2 :=
        fun x hx => h x (List.mem_cons_of_mem p hx)
      rw [aaWeaveY_cons₂] at hw
      by_cases hpq : p.1 = q.1
      · rw [if_pos hpq] at hw
        rcases List.mem_cons.mp hw with rfl | hw'
        · exact h p (by simp)
        · exact ih hq w hw'
      · rw [if_neg hpq] at hw
        rcases List.mem_cons.mp hw with rfl | hw'
        · exact h p (by simp)
        rcases List.mem_cons.mp hw' with rfl | hw''
        · exact ⟨(h p (by simp)).1, (hq q (by simp)).2⟩
        rcases List.mem_cons.mp hw'' with rfl | hw'''
        · exact ⟨(hq q (by simp)).1, (h p (by simp)).2⟩
        · exact ih hq w hw'''

/-- C9: every write of `renderLine` and of `renderLineAA` (main-line and AA
pixels alike) lies inside the axis-aligned bounding box spanned by
`startPos` and `endPos`; consequently, whenever both endpoints lie inside a
`W × H` buffer, no write indexes outside the buffer. -/
theorem renderLine_writes_in_bbox (s ep : ℤ × ℤ) (col : ColorF) (rate : ℚ) :
    (∀ p ∈ renderLine s ep,
        min s.1 ep.1 ≤ p.1 ∧ p.1 ≤ max s.1 ep.1 ∧
          min s.2 ep.2 ≤ p.2 ∧ p.2 ≤ max s.2 ep.2) ∧
    (∀ w ∈ renderLineAA s ep col rate,
        min s.1 ep.1 ≤ w.pos.1 ∧ w.pos.1 ≤ max s.1 ep.1 ∧
          min s.2 ep.2 ≤ w.pos.2 ∧ w.pos.2 ≤ max s.2 ep.2) ∧
    (∀ W H : ℤ, 0 ≤ s.1 → s.1 < W → 0 ≤ s.2 → s.2 < H →
        0 ≤ ep.1 → ep.1 < W → 0 ≤ ep.2 → ep.2 < H →
        ∀ w ∈ renderLineAA s ep col rate,
          0 ≤ w.pos.1 ∧ w.pos.1 < W ∧ 0 ≤ w.pos.2 ∧ w.pos.2 < H) := by
  have hmain := renderLine_mem_box s ep
  have haa : ∀ w ∈ renderLineAA s ep col rate,
      (min s.1 ep.1 ≤ w.pos.1 ∧ w.pos.1 ≤ max s.1 ep.1) ∧
        (min s.2 ep.2 ≤ w.pos.2 ∧ w.pos.2 ≤ max s.2 ep.2) := by
    rw [renderLineAA_eq_weave]
    by_cases hmaj : dist1 s.2 ep.2 ≤ dist1 s.1 ep.1
    · rw [if_pos hmaj]
      exact aaWeaveX_box col _ (fun x => min s.1 ep.1 ≤ x ∧ x ≤ max s.1 ep.1)
        (fun x => min s.2 ep.2 ≤ x ∧ x ≤ max s.2 ep.2) (renderLine s ep)
        (fun p hp => by
          obtain ⟨h1, h2, h3, h4⟩ := hmain p hp
          exact ⟨⟨h1, h2⟩, h3, h4⟩)
    · rw [if_neg hmaj]
      exact aaWeaveY_box col _ (fun x => min s.1 ep.1 ≤ x ∧ x ≤ max s.1 ep.1)
        (fun x => min s.2 ep.2 ≤ x ∧ x ≤ max s.2 ep.2) (renderLine s ep)
        (fun p hp => by
          obtain ⟨h1, h2, h3, h4⟩ := hmain p hp
          exact ⟨⟨h1, h2⟩, h3, h4⟩)
  refine ⟨hmain, ?_, ?_⟩
  · intro w hw
    obtain ⟨⟨h1, h2⟩, h3, h4⟩ := haa w hw
    exact ⟨h1, h2, h3, h4⟩
  · intro W H hs1 hsW hs2 hsH he1 heW he2 heH w hw
    obtain ⟨⟨h1, h2⟩, h3, h4⟩ := haa w hw
    omega

/-- C9 witness: on the segment `(0,0)`-`(3,2)` the main pixel `(2,1)` and the
first AA write are inside the bounding box, and inside a `10 × 10` buffer. -/
theorem renderLine_writes_in_bbox_witness :
    (min (0 : ℤ) 3 ≤ 2 ∧ (2 : ℤ) ≤ max 0 3 ∧ min (0 : ℤ) 2 ≤ 1 ∧ (1 : ℤ) ≤ max 0 2) ∧
    (0 ≤ (2 : ℤ) ∧ (2 : ℤ) < 10 ∧ 0 ≤ (1 : ℤ) ∧ (1 : ℤ) < 10) := by
  constructor
  · exact (renderLine_writes_in_bbox (0, 0) (3, 2) ⟨1, 1, 1, 1⟩ (3 / 10)).1 (2, 1) (by decide)
  · exact (renderLine_writes_in_bbox (0, 0) (3, 2) ⟨1, 1, 1, 1⟩ (3 / 10)).2.2 10 10
      (by norm_num) (by norm_num) (by norm_num) (by norm_num) (by norm_num) (by norm_num)
      (by norm_num) (by norm_num) (Write.mk (2, 1) ⟨1, 1, 1, 1⟩)
      (by norm_num [renderLineAA, dist1, step1, aaLoopX, clamp01])

lemma decayLoop1X_succ (splitX sx sy d2x d2y : ℤ) (col aaCol : ColorF) (fuel : ℕ)
    (nx ny e : ℤ) :
    decayLoop1X splitX sx sy d2x d2y col aaCol (fuel + 1) (nx, ny) e =
      (if nx = splitX then ([Write.mk (nx, ny) col], (nx, ny), e)
       else if d2x ≤ e + d2y then
         (Write.mk (nx, ny) col :: Write.mk (nx + sx, ny) aaCol ::
            Write.mk (nx + sx - sx, ny + sy) aaCol ::
              (decayLoop1X splitX sx sy d2x d2y col aaCol fuel (nx + sx, ny + sy)
                (e + d2y - d2x)).1,
          (decayLoop1X splitX sx sy d2x d2y col aaCol fuel (nx + sx, ny + sy)
            (e + d2y - d2x)).2)
       else
         (Write.mk (nx, ny) col ::
            (decayLoop1X splitX sx sy d2x d2y col aaCol fuel (nx + sx, ny) (e + d2y)).1,
          (decayLoop1X splitX sx sy d2x d2y col aaCol fuel (nx + sx, ny) (e + d2y)).2)) := rfl

lemma decayLoop1Y_succ (splitY sx sy d2x d2y : ℤ) (col aaCol : ColorF) (fuel : ℕ)
    (nx ny e : ℤ) :
    decayLoop1Y splitY sx sy d2x d2y col aaCol (fuel + 1) (nx, ny) e =
      (if ny = splitY then ([Write.mk (nx, ny) col], (nx, ny), e)
       else if d2y ≤ e + d2x then
         (Write.mk (nx, ny) col :: Write.mk (nx, ny + sy) aaCol ::
            Write.mk (nx + sx, ny + sy - sy) aaCol ::
              (decayLoop1Y splitY sx sy d2x d2y col aaCol fuel (nx + sx, ny + sy)
                (e + d2x - d2y)).1,
          (decayLoop1Y splitY sx sy d2x d2y col aaCol fuel (nx + sx, ny + sy)
            (e + d2x - d2y)).2)
       else
         (Write.mk (nx, ny) col ::
            (decayLoop1Y splitY sx sy d2x d2y col aaCol fuel (nx, ny + sy) (e + d2x)).1,
          (decayLoop1Y splitY sx sy d2x d2y col aaCol fuel (nx, ny + sy) (e + d2x)).2)) := rfl

lemma decayLoop1X_fst (splitX sx sy d2x d2y : ℤ) (col aaCol : ColorF) :
    ∀ (fuel : ℕ) (now : ℤ × ℤ) (e : ℤ),
      (decayLoop1X splitX sx sy d2x d2y col aaCol fuel now e).1 =
        aaLoopX splitX sx sy d2x d2y col aaCol fuel now e := by
  intro fuel
  induction fuel with
  | zero => intro now e; rfl
  | succ fuel ih =>
    rintro ⟨nx, ny⟩ e
    rw [decayLoop1X_succ, aaLoopX_succ]
    by_cases hx : nx = splitX
    · rw [if_pos hx, if_pos hx]
    · rw [if_neg hx, if_neg hx]
      by_cases hfire : d2x ≤ e + d2y
      · rw [if_pos hfire, if_pos hfire]
        simp only [List.cons.injEq, true_and]
        exact ih _ _
      · rw [if_neg hfire, if_neg hfire]
        simp only [List.cons.injEq, true_and]
        exact ih _ _

lemma decayLoop1Y_fst (splitY sx sy d2x d2y : ℤ) (col aaCol : ColorF) :
    ∀ (fuel : ℕ) (now : ℤ × ℤ) (e : ℤ),
      (decayLoop1Y splitY sx sy d2x d2y col aaCol fuel now e).1 =
        aaLoopY splitY sx sy d2x d2y col aaCol fuel now e := by
  intro fuel
  induction fuel with
  | zero => intro now e; rfl
  | succ fuel ih =>
    rintro ⟨nx, ny⟩ e
    rw [decayLoop1Y_succ, aaLoopY_succ]
    by_cases hy : ny = splitY
    · rw [if_pos hy, if_pos hy]
    · rw [if_neg hy, if_neg hy]
      by_cases hfire : d2y ≤ e + d2x
      · rw [if_pos hfire, if_pos hfire]
        simp only [List.cons.injEq, true_and]
        exact ih _ _
      · rw [if_neg hfire, if_neg hfire]
        simp only [List.cons.injEq, true_and]
        exact ih _ _

lemma decayLoop1X_state (splitX sx sy d2x d2y : ℤ) (col aaCol : ColorF)
    (hsx : sx = 1 ∨ sx = -1) (hdy0 : 0 ≤ d2y) (hdyx : d2y ≤ d2x) :
    ∀ (n : ℕ) (extra : ℕ) (nx ny e : ℤ), splitX = nx + n * sx → 0 ≤ e →
      (e < d2x ∨ (n = 0 ∧ e = 0 ∧ d2x = 0)) →
      (decayLoop1X splitX sx sy d2x d2y col aaCol (n + 1 + extra) (nx, ny) e).2 =
        ((splitX, ny + sy * ((e + (n : ℤ) * d2y) / d2x)),
          e + (n : ℤ) * d2y - d2x * ((e + (n : ℤ) * d2y) / d2x)) := by
  intro n
  induction n with
  | zero =>
    intro extra nx ny e hstart he0 he1
    have hx : nx = splitX := by omega
    have hdiv : e / d2x = 0 := by
      rcases he1 with h | h
      · exact Int.ediv_eq_zero_of_lt he0 h
      · rw [h.2.1]
        exact Int.zero_ediv d2x
    rw [show 0 + 1 + extra = extra + 1 from by omega]
    rw [decayLoop1X_succ, if_pos hx]
    simp only [Nat.cast_zero, zero_mul, add_zero, hdiv, mul_zero, sub_zero]
    rw [Prod.mk.injEq, Prod.mk.injEq]
    exact ⟨⟨hx, rfl⟩, rfl⟩
  | succ n ih =>
    intro extra nx ny e hstart he0 he1
    replace he1 : e < d2x := by rcases he1 with h | h; exacts [h, by omega]
    have hd2x : d2x ≠ 0 := by omega
    have hx : ¬ nx = splitX := by rcases hsx with h | h <;> subst h <;> omega
    rw [show n + 1 + 1 + extra = (n + 1 + extra) + 1 from by omega]
    rw [decayLoop1X_succ, if_neg hx]
    by_cases hfire : d2x ≤ e + d2y
    · rw [if_pos hfire]
      rw [ih extra (nx + sx) (ny + sy) (e + d2y - d2x) (by rw [hstart]; push_cast; ring)
        (by omega) (Or.inl (by omega))]
      have hq : (e + ((n : ℤ) + 1) * d2y) / d2x = (e + d2y - d2x + (n : ℤ) * d2y) / d2x + 1 := by
        rw [show e + ((n : ℤ) + 1) * d2y = (e + d2y - d2x + (n : ℤ) * d2y) + 1 * d2x from by ring,
          Int.add_mul_ediv_right _ _ hd2x]
      push_cast
      rw [hq]
      rw [Prod.mk.injEq, Prod.mk.injEq]
      exact ⟨⟨rfl, by ring⟩, by ring⟩
    · rw [if_neg hfire]
      rw [ih extra (nx + sx) ny (e + d2y) (by rw [hstart]; push_cast; ring) (by omega)
        (Or.inl (by omega))]
      have hq : (e + ((n : ℤ) + 1) * d2y) / d2x = (e + d2y + (n : ℤ) * d2y) / d2x := by
        rw [show e + ((n : ℤ) + 1) * d2y = e + d2y + (n : ℤ) * d2y from by ring]
      push_cast
      rw [hq]
      rw [Prod.mk.injEq, Prod.mk.injEq]
      exact ⟨⟨rfl, by ring⟩, by ring⟩

lemma decayLoop2X_succ (startX sx sy d2x d2y : ℤ) (rgb : ColorF) (aaRate fade : ℚ)
    (fuel : ℕ) (nx ny e : ℤ) (a : ℚ) :
    decayLoop2X startX sx sy d2x d2y rgb aaRate fade (fuel + 1) (nx, ny) e a =
      (if d2x ≤ e + d2y then
        Write.mk (nx + sx, ny) ⟨rgb.r, rgb.g, rgb.b, (a - fade) * aaRate⟩ ::
        Write.mk (nx + sx - sx, ny + sy) ⟨rgb.r, rgb.g, rgb.b, (a - fade) * aaRate⟩ ::
        Write.mk (nx + sx, ny + sy) ⟨rgb.r, rgb.g, rgb.b, a - fade⟩ ::
          (if nx + sx = startX then []
           else decayLoop2X startX sx sy d2x d2y rgb aaRate fade fuel (nx + sx, ny + sy)
             (e + d2y - d2x) (a - fade))
       else
        Write.mk (nx + sx, ny) ⟨rgb.r, rgb.g, rgb.b, a - fade⟩ ::
          (if nx + sx = startX then []
           else decayLoop2X startX sx sy d2x d2y rgb aaRate fade fuel (nx + sx, ny)
             (e + d2y) (a - fade))) := rfl

lemma decayLoop2Y_succ (startY sx sy d2x d2y : ℤ) (rgb : ColorF) (aaRate fade : ℚ)
    (fuel : ℕ) (nx ny e : ℤ) (a : ℚ) :
    decayLoop2Y startY sx sy d2x d2y rgb aaRate fade (fuel + 1) (nx, ny) e a =
      (if d2y ≤ e + d2x then
        Write.mk (nx, ny + sy) ⟨rgb.r, rgb.g, rgb.b, (a - fade) * aaRate⟩ ::
        Write.mk (nx + sx, ny + sy - sy) ⟨rgb.r, rgb.g, rgb.b, (a - fade) * aaRate⟩ ::
        Write.mk (nx + sx, ny + sy) ⟨rgb.r, rgb.g, rgb.b, a - fade⟩ ::
          (if ny + sy = startY then []
           else decayLoop2Y startY sx sy d2x d2y rgb aaRate fade fuel (nx + sx, ny + sy)
             (e + d2x - d2y) (a - fade))
       else
        Write.mk (nx, ny + sy) ⟨rgb.r, rgb.g, rgb.b, a - fade⟩ ::
          (if ny + sy = startY then []
           else decayLoop2Y startY sx sy d2x d2y rgb aaRate fade fuel (nx, ny + sy)
             (e + d2x) (a - fade))) := rfl

lemma decayBlocks_succ (sx sy d2x d2y : ℤ) (rgb : ColorF) (aaRate fade : ℚ)
    (nx ny e : ℤ) (a : ℚ) (n : ℕ) (hd2x : d2x ≠ 0) :
    decayBlocks sx sy d2x d2y rgb aaRate fade nx ny e a (n + 1) =
      (if (e + d2y) / d2x = e / d2x then
        [Write.mk (nx + sx, ny + sy * (e / d2x)) ⟨rgb.r, rgb.g, rgb.b, a - fade⟩]
       else
        [Write.mk (nx + sx, ny + sy * (e / d2x)) ⟨rgb.r, rgb.g, rgb.b, (a - fade) * aaRate⟩,
         Write.mk (nx, ny + sy * ((e + d2y) / d2x)) ⟨rgb.r, rgb.g, rgb.b, (a - fade) * aaRate⟩,
         Write.mk (nx + sx, ny + sy * ((e + d2y) / d2x)) ⟨rgb.r, rgb.g, rgb.b, a - fade⟩]) ++
      decayBlocks sx sy d2x d2y rgb aaRate fade (nx + sx) (ny + sy * ((e + d2y) / d2x))
        (e + d2y - d2x * ((e + d2y) / d2x)) (a - fade) n := by
  have hsh : ∀ j : ℤ, (e + (j + 1) * d2y) / d2x =
      (e + d2y - d2x * ((e + d2y) / d2x) + j * d2y) / d2x + (e + d2y) / d2x := by
    intro j
    rw [show e + (j + 1) * d2y =
      (e + d2y - d2x * ((e + d2y) / d2x) + j * d2y) + ((e + d2y) / d2x) * d2x from by ring]
    exact Int.add_mul_ediv_right _ _ hd2x
  unfold decayBlocks
  rw [List.range_succ_eq_map, List.map_cons, List.flatten_cons, List.map_map]
  congr 1
  · norm_num
  · apply congrArg List.flatten
    apply List.map_congr_left
    intro k hk
    simp only [Function.comp_apply]
    push_cast
    rw [hsh ((k : ℤ) + 1), hsh (k : ℤ)]
    apply if_congr (add_left_inj _)
    · simp only [List.cons.injEq, Write.mk.injEq, Prod.mk.injEq, ColorF.mk.injEq]
      and_intros <;> first | rfl | ring
    · simp only [List.cons.injEq, Write.mk.injEq, Prod.mk.injEq, ColorF.mk.injEq]
      and_intros <;> first | rfl | ring

lemma clamp01_mem (x : ℚ) : 0 ≤ clamp01 x ∧ clamp01 x ≤ 1 := by
  unfold clamp01
  split_ifs <;> constructor <;> linarith

lemma clamp01_zero : clamp01 0 = 0 := by norm_num [clamp01]

lemma clamp01_one : clamp01 1 = 1 := by norm_num [clamp01]

lemma truncRat_zero : truncRat 0 = 0 := by norm_num [truncRat]

lemma truncRat_nonneg {q : ℚ} (h : 0 ≤ q) : 0 ≤ truncRat q := by
  unfold truncRat
  rw [if_neg (not_lt.mpr h)]
  exact Int.floor_nonneg.mpr h

lemma truncRat_le {q : ℚ} {m : ℤ} (h0 : 0 ≤ q) (h : q ≤ (m : ℚ)) : truncRat q ≤ m := by
  unfold truncRat
  rw [if_neg (not_lt.mpr h0)]
  have hf := Int.floor_le_floor h
  rwa [Int.floor_intCast] at hf

lemma truncRat_neg (q : ℚ) : truncRat (-q) = -truncRat q := by
  unfold truncRat
  rcases lt_trichotomy q 0 with h | h | h
  · rw [if_neg (by linarith), if_pos h, neg_neg]
  · subst h
    norm_num
  · rw [if_pos (by linarith), if_neg (by linarith), neg_neg]

lemma truncRat_intCast (m : ℤ) : truncRat ((m : ℚ)) = m := by
  unfold truncRat
  rcases le_or_lt 0 m with h | h
  · rw [if_neg (not_lt.mpr (by exact_mod_cast h))]
    exact Int.floor_intCast m
  · rw [if_pos (by exact_mod_cast h)]
    rw [show -((m : ℚ)) = ((-m : ℤ) : ℚ) from by push_cast; ring, Int.floor_intCast]
    ring

lemma truncRat_mul_le (Δ : ℤ) (r : ℚ) (h0 : 0 ≤ r) (h1 : r ≤ 1) (hΔ : 0 ≤ Δ) :
    0 ≤ truncRat ((Δ : ℚ) * r) ∧ truncRat ((Δ : ℚ) * r) ≤ Δ := by
  have hc : (0 : ℚ) ≤ (Δ : ℚ) := by exact_mod_cast hΔ
  have hq0 : 0 ≤ (Δ : ℚ) * r := mul_nonneg hc h0
  exact ⟨truncRat_nonneg hq0, truncRat_le hq0 (mul_le_of_le_one_right hc h1)⟩

lemma truncRat_mul_neg_le (Δ : ℤ) (r : ℚ) (h0 : 0 ≤ r) (h1 : r ≤ 1) (hΔ : Δ ≤ 0) :
    Δ ≤ truncRat ((Δ : ℚ) * r) ∧ truncRat ((Δ : ℚ) * r) ≤ 0 := by
  have key : truncRat ((Δ : ℚ) * r) = -truncRat (((-Δ : ℤ) : ℚ) * r) := by
    rw [show ((Δ : ℚ)) * r = -(((-Δ : ℤ) : ℚ) * r) from by push_cast; ring, truncRat_neg]
  have hb := truncRat_mul_le (-Δ) r h0 h1 (by omega)
  rw [key]
  omega

lemma decayLoop1Y_swap (splitY sx sy d2x d2y : ℤ) (col aaCol : ColorF) :
    ∀ (fuel : ℕ) (now : ℤ × ℤ) (e : ℤ),
      decayLoop1Y splitY sx sy d2x d2y col aaCol fuel now e =
        ((decayLoop1X splitY sy sx d2y d2x col aaCol fuel (now.2, now.1) e).1.map writeSwap,
         ((decayLoop1X splitY sy sx d2y d2x col aaCol fuel (now.2, now.1) e).2.1.2,
          (decayLoop1X splitY sy sx d2y d2x col aaCol fuel (now.2, now.1) e).2.1.1),
         (decayLoop1X splitY sy sx d2y d2x col aaCol fuel (now.2, now.1) e).2.2) := by
  intro fuel
  induction fuel with
  | zero => intro now e; rfl
  | succ fuel ih =>
    rintro ⟨nx, ny⟩ e
    rw [decayLoop1Y_succ, decayLoop1X_succ]
    by_cases hy : ny = splitY
    · rw [if_pos hy, if_pos hy]
      rfl
    · rw [if_neg hy, if_neg hy]
      by_cases hfire : d2y ≤ e + d2x
      · rw [if_pos hfire, if_pos hfire, ih (nx + sx, ny + sy) (e + d2x - d2y)]
        rfl
      · rw [if_neg hfire, if_neg hfire, ih (nx, ny + sy) (e + d2x)]
        rfl

lemma decayLoop2Y_swap (startY sx sy d2x d2y : ℤ) (rgb : ColorF) (aaRate fade : ℚ) :
    ∀ (fuel : ℕ) (now : ℤ × ℤ) (e : ℤ) (a : ℚ),
      decayLoop2Y startY sx sy d2x d2y rgb aaRate fade fuel now e a =
        (decayLoop2X startY sy sx d2y d2x rgb aaRate fade fuel (now.2, now.1) e a).map
          writeSwap := by
  intro fuel
  induction fuel with
  | zero => intro now e a; rfl
  | succ fuel ih =>
    rintro ⟨nx, ny⟩ e a
    rw [decayLoop2Y_succ, decayLoop2X_succ]
    by_cases hfire : d2y ≤ e + d2x
    · rw [if_pos hfire, if_pos hfire]
      by_cases hbreak : ny + sy = startY
      · rw [if_pos hbreak, if_pos hbreak]
        rfl
      · rw [if_neg hbreak, if_neg hbreak, ih (nx + sx, ny + sy) (e + d2x - d2y) (a - fade)]
        rfl
    · rw [if_neg hfire, if_neg hfire]
      by_cases hbreak : ny + sy = startY
      · rw [if_pos hbreak, if_pos hbreak]
        rfl
      · rw [if_neg hbreak, if_neg hbreak, ih (nx, ny + sy) (e + d2x) (a - fade)]
        rfl

lemma decayLoop2X_closed (startX sx sy d2x d2y : ℤ) (rgb : ColorF) (aaRate fade : ℚ)
    (hsx : sx = 1 ∨ sx = -1) (hdy0 : 0 ≤ d2y) (hdyx : d2y ≤ d2x) :
    ∀ (n : ℕ) (nx ny e : ℤ) (a : ℚ), startX = nx + ((n : ℤ) + 1) * sx → 0 ≤ e → e < d2x →
      decayLoop2X startX sx sy d2x d2y rgb aaRate fade (n + 1) (nx, ny) e a =
        decayBlocks sx sy d2x d2y rgb aaRate fade nx ny e a (n + 1) := by
  intro n
  induction n with
  | zero =>
    intro nx ny e a hstart he0 he1
    have hd2x : d2x ≠ 0 := by omega
    have hxs : nx + sx = startX := by
      rcases hsx with h | h <;> subst h <;> push_cast at hstart <;> omega
    rw [decayLoop2X_succ, decayBlocks_succ sx sy d2x d2y rgb aaRate fade nx ny e a 0 hd2x]
    rw [show decayBlocks sx sy d2x d2y rgb aaRate fade (nx + sx)
      (ny + sy * ((e + d2y) / d2x)) (e + d2y - d2x * ((e + d2y) / d2x)) (a - fade) 0 = []
      from rfl]
    rw [List.append_nil]
    have hμ0 : e / d2x = 0 := Int.ediv_eq_zero_of_lt he0 he1
    by_cases hfire : d2x ≤ e + d2y
    · have hμ1 : (e + d2y) / d2x = 1 := by
        rw [show e + d2y = (e + d2y - d2x) + 1 * d2x from by ring,
          Int.add_mul_ediv_right _ _ hd2x, Int.ediv_eq_zero_of_lt (by omega) (by omega),
          zero_add]
      rw [if_pos hfire, if_pos hxs, if_neg (by rw [hμ0, hμ1]; omega), hμ0, hμ1]
      simp only [List.cons.injEq, Write.mk.injEq, Prod.mk.injEq, ColorF.mk.injEq]
      and_intros <;> first | rfl | ring
    · have hμ1 : (e + d2y) / d2x = 0 := Int.ediv_eq_zero_of_lt (by omega) (by omega)
      rw [if_neg hfire, if_pos hxs, if_pos (by rw [hμ0, hμ1]), hμ0]
      simp only [List.cons.injEq, Write.mk.injEq, Prod.mk.injEq, ColorF.mk.injEq]
      and_intros <;> first | rfl | ring
  | succ n ih =>
    intro nx ny e a hstart he0 he1
    have hd2x : d2x ≠ 0 := by omega
    have hxne : ¬ nx + sx = startX := by
      rcases hsx with h | h <;> subst h <;> push_cast at hstart <;> omega
    rw [decayLoop2X_succ, decayBlocks_succ sx sy d2x d2y rgb aaRate fade nx ny e a (n + 1) hd2x]
    have hμ0 : e / d2x = 0 := Int.ediv_eq_zero_of_lt he0 he1
    by_cases hfire : d2x ≤ e + d2y
    · have hμ1 : (e + d2y) / d2x = 1 := by
        rw [show e + d2y = (e + d2y - d2x) + 1 * d2x from by ring,
          Int.add_mul_ediv_right _ _ hd2x, Int.ediv_eq_zero_of_lt (by omega) (by omega),
          zero_add]
      rw [if_pos hfire, if_neg hxne]
      rw [ih (nx + sx) (ny + sy) (e + d2y - d2x) (a - fade)
        (by push_cast at hstart ⊢; linear_combination hstart) (by omega) (by omega)]
      rw [if_neg (by rw [hμ0, hμ1]; omega), hμ0, hμ1]
      simp only [mul_one, mul_zero, add_zero, add_sub_cancel_right, List.cons_append,
        List.nil_append]
    · have hμ1 : (e + d2y) / d2x = 0 := Int.ediv_eq_zero_of_lt (by omega) (by omega)
      rw [if_neg hfire, if_neg hxne]
      rw [ih (nx + sx) ny (e + d2y) (a - fade)
        (by push_cast at hstart ⊢; linear_combination hstart) (by omega) (by omega)]
      rw [if_pos (by rw [hμ0, hμ1]), hμ0, hμ1]
      simp only [mul_one, mul_zero, add_zero, sub_zero, List.cons_append, List.nil_append]

lemma renderDecayLine_split_x (s ep : ℤ × ℤ) (col : ColorF) (dr ar : ℚ)
    (hmaj : dist1 s.2 ep.2 ≤ dist1 s.1 ep.1)
    (hLne : truncRat (((ep.1 - s.1 : ℤ) : ℚ) * clamp01 dr) ≠ 0) :
    renderDecayLine s ep col dr ar =
      (decayLoop1X (s.1 + truncRat (((ep.1 - s.1 : ℤ) : ℚ) * clamp01 dr)) (step1 s.1 ep.1)
          (step1 s.2 ep.2) (dist1 s.1 ep.1 * 2) (dist1 s.2 ep.2 * 2) col
          ⟨col.r, col.g, col.b, col.a * clamp01 ar⟩ ((dist1 s.1 ep.1).toNat + 1) ep
          (dist1 s.1 ep.1)).1 ++
        decayBlocks (step1 s.1 ep.1) (step1 s.2 ep.2) (dist1 s.1 ep.1 * 2)
          (dist1 s.2 ep.2 * 2) col (clamp01 ar)
          (col.a / (1 + (((truncRat (((ep.1 - s.1 : ℤ) : ℚ) * clamp01 dr)).natAbs : ℕ) : ℚ)))
          (s.1 + truncRat (((ep.1 - s.1 : ℤ) : ℚ) * clamp01 dr))
          ((decayLoop1X (s.1 + truncRat (((ep.1 - s.1 : ℤ) : ℚ) * clamp01 dr)) (step1 s.1 ep.1)
          (step1 s.2 ep.2) (dist1 s.1 ep.1 * 2) (dist1 s.2 ep.2 * 2) col
          ⟨col.r, col.g, col.b, col.a * clamp01 ar⟩ ((dist1 s.1 ep.1).toNat + 1) ep
          (dist1 s.1 ep.1)).2.1.2)
          ((decayLoop1X (s.1 + truncRat (((ep.1 - s.1 : ℤ) : ℚ) * clamp01 dr)) (step1 s.1 ep.1)
          (step1 s.2 ep.2) (dist1 s.1 ep.1 * 2) (dist1 s.2 ep.2 * 2) col
          ⟨col.r, col.g, col.b, col.a * clamp01 ar⟩ ((dist1 s.1 ep.1).toNat + 1) ep
          (dist1 s.1 ep.1)).2.2)
          col.a (truncRat (((ep.1 - s.1 : ℤ) : ℚ) * clamp01 dr)).natAbs := by
  have hd1 := dist1_natAbs s.1 ep.1
  have hd2 := dist1_natAbs s.2 ep.2
  have hdr := clamp01_mem dr
  have hLb : (((truncRat (((ep.1 - s.1 : ℤ) : ℚ) * clamp01 dr)).natAbs : ℤ) ≤ dist1 s.1 ep.1) ∧
      s.1 + truncRat (((ep.1 - s.1 : ℤ) : ℚ) * clamp01 dr) =
        ep.1 + ((dist1 s.1 ep.1 - ((truncRat (((ep.1 - s.1 : ℤ) : ℚ) * clamp01 dr)).natAbs : ℤ)).toNat : ℤ) * step1 s.1 ep.1 ∧
      s.1 = (s.1 + truncRat (((ep.1 - s.1 : ℤ) : ℚ) * clamp01 dr)) + (((truncRat (((ep.1 - s.1 : ℤ) : ℚ) * clamp01 dr)).natAbs : ℤ)) * step1 s.1 ep.1 := by
    rcases le_or_lt s.1 ep.1 with hle | hlt
    · have hb := truncRat_mul_le (ep.1 - s.1) (clamp01 dr) hdr.1 hdr.2 (by omega)
      have hs : step1 s.1 ep.1 = -1 := by unfold step1; rw [if_pos hle]
      rw [hs]
      omega
    · have hb := truncRat_mul_neg_le (ep.1 - s.1) (clamp01 dr) hdr.1 hdr.2 (by omega)
      have hs : step1 s.1 ep.1 = 1 := by unfold step1; rw [if_neg (not_le.mpr hlt)]
      rw [hs]
      omega
  have hdx : 0 < dist1 s.1 ep.1 := by
    rcases le_or_lt s.1 ep.1 with hle | hlt
    · have hb := truncRat_mul_le (ep.1 - s.1) (clamp01 dr) hdr.1 hdr.2 (by omega)
      omega
    · have hb := truncRat_mul_neg_le (ep.1 - s.1) (clamp01 dr) hdr.1 hdr.2 (by omega)
      omega
  obtain ⟨m, hm⟩ : ∃ m, (truncRat (((ep.1 - s.1 : ℤ) : ℚ) * clamp01 dr)).natAbs = m + 1 :=
    ⟨(truncRat (((ep.1 - s.1 : ℤ) : ℚ) * clamp01 dr)).natAbs - 1, by omega⟩
  rw [hm] at hLb
  simp only [renderDecayLine]
  rw [if_pos hmaj]
  rw [hm]
  rw [show (dist1 s.1 ep.1).toNat + 1 =
    ((dist1 s.1 ep.1 - ((m + 1 : ℕ) : ℤ)).toNat) + 1 + (m + 1) from by omega]
  rw [decayLoop1X_state (s.1 + truncRat (((ep.1 - s.1 : ℤ) : ℚ) * clamp01 dr))
    (step1 s.1 ep.1) (step1 s.2 ep.2) (dist1 s.1 ep.1 * 2) (dist1 s.2 ep.2 * 2) col
    ⟨col.r, col.g, col.b, col.a * clamp01 ar⟩ (step1_cases s.1 ep.1)
    (by have := dist1_nonneg s.2 ep.2; omega) (by omega)
    ((dist1 s.1 ep.1 - ((m + 1 : ℕ) : ℤ)).toNat) (m + 1) ep.1 ep.2 (dist1 s.1 ep.1)
    hLb.2.1 (by omega) (Or.inl (by omega))]
  dsimp only
  rw [if_neg (show ¬ s.1 + truncRat (((ep.1 - s.1 : ℤ) : ℚ) * clamp01 dr) = s.1 from by omega)]
  have hemod : dist1 s.1 ep.1 +
      ((dist1 s.1 ep.1 - ((m + 1 : ℕ) : ℤ)).toNat : ℤ) * (dist1 s.2 ep.2 * 2) -
      dist1 s.1 ep.1 * 2 *
        ((dist1 s.1 ep.1 +
          ((dist1 s.1 ep.1 - ((m + 1 : ℕ) : ℤ)).toNat : ℤ) * (dist1 s.2 ep.2 * 2)) /
          (dist1 s.1 ep.1 * 2)) =
      (dist1 s.1 ep.1 +
        ((dist1 s.1 ep.1 - ((m + 1 : ℕ) : ℤ)).toNat : ℤ) * (dist1 s.2 ep.2 * 2)) %
        (dist1 s.1 ep.1 * 2) := (Int.emod_def _ _).symm
  rw [decayLoop2X_closed s.1 (step1 s.1 ep.1) (step1 s.2 ep.2) (dist1 s.1 ep.1 * 2)
    (dist1 s.2 ep.2 * 2) col (clamp01 ar)
    (col.a / (1 + ((m + 1 : ℕ) : ℚ)))
    (step1_cases s.1 ep.1) (by have := dist1_nonneg s.2 ep.2; omega) (by omega)
    m (s.1 + truncRat (((ep.1 - s.1 : ℤ) : ℚ) * clamp01 dr)) _ _ col.a
    (by push_cast at hLb ⊢; exact hLb.2.2)
    (by rw [hemod]; exact Int.emod_nonneg _ (by omega))
    (by rw [hemod]; exact Int.emod_lt_of_pos _ (by omega))]

lemma renderDecayLine_split_y (s ep : ℤ × ℤ) (col : ColorF) (dr ar : ℚ)
    (hmaj : ¬ dist1 s.2 ep.2 ≤ dist1 s.1 ep.1)
    (hLne : truncRat (((ep.2 - s.2 : ℤ) : ℚ) * clamp01 dr) ≠ 0) :
    renderDecayLine s ep col dr ar =
      (decayLoop1Y (s.2 + truncRat (((ep.2 - s.2 : ℤ) : ℚ) * clamp01 dr)) (step1 s.1 ep.1)
          (step1 s.2 ep.2) (dist1 s.1 ep.1 * 2) (dist1 s.2 ep.2 * 2) col
          ⟨col.r, col.g, col.b, col.a * clamp01 ar⟩ ((dist1 s.2 ep.2).toNat + 1) ep
          (dist1 s.2 ep.2)).1 ++
        (decayBlocks (step1 s.2 ep.2) (step1 s.1 ep.1) (dist1 s.2 ep.2 * 2)
          (dist1 s.1 ep.1 * 2) col (clamp01 ar)
          (col.a / (1 + (((truncRat (((ep.2 - s.2 : ℤ) : ℚ) * clamp01 dr)).natAbs : ℕ) : ℚ)))
          (s.2 + truncRat (((ep.2 - s.2 : ℤ) : ℚ) * clamp01 dr))
          ((decayLoop1Y (s.2 + truncRat (((ep.2 - s.2 : ℤ) : ℚ) * clamp01 dr)) (step1 s.1 ep.1)
          (step1 s.2 ep.2) (dist1 s.1 ep.1 * 2) (dist1 s.2 ep.2 * 2) col
          ⟨col.r, col.g, col.b, col.a * clamp01 ar⟩ ((dist1 s.2 ep.2).toNat + 1) ep
          (dist1 s.2 ep.2)).2.1.1)
          ((decayLoop1Y (s.2 + truncRat (((ep.2 - s.2 : ℤ) : ℚ) * clamp01 dr)) (step1 s.1 ep.1)
          (step1 s.2 ep.2) (dist1 s.1 ep.1 * 2) (dist1 s.2 ep.2 * 2) col
          ⟨col.r, col.g, col.b, col.a * clamp01 ar⟩ ((dist1 s.2 ep.2).toNat + 1) ep
          (dist1 s.2 ep.2)).2.2)
          col.a (truncRat (((ep.2 - s.2 : ℤ) : ℚ) * clamp01 dr)).natAbs).map writeSwap := by
  have hd1 := dist1_natAbs s.1 ep.1
  have hd2 := dist1_natAbs s.2 ep.2
  have hdr := clamp01_mem dr
  have hLb : (((truncRat (((ep.2 - s.2 : ℤ) : ℚ) * clamp01 dr)).natAbs : ℤ) ≤ dist1 s.2 ep.2) ∧
      s.2 + truncRat (((ep.2 - s.2 : ℤ) : ℚ) * clamp01 dr) =
        ep.2 + ((dist1 s.2 ep.2 - ((truncRat (((ep.2 - s.2 : ℤ) : ℚ) * clamp01 dr)).natAbs : ℤ)).toNat : ℤ) * step1 s.2 ep.2 ∧
      s.2 = (s.2 + truncRat (((ep.2 - s.2 : ℤ) : ℚ) * clamp01 dr)) + (((truncRat (((ep.2 - s.2 : ℤ) : ℚ) * clamp01 dr)).natAbs : ℤ)) * step1 s.2 ep.2 := by
    rcases le_or_lt s.2 ep.2 with hle | hlt
    · have hb := truncRat_mul_le (ep.2 - s.2) (clamp01 dr) hdr.1 hdr.2 (by omega)
      have hs : step1 s.2 ep.2 = -1 := by unfold step1; rw [if_pos hle]
      rw [hs]
      omega
    · have hb := truncRat_mul_neg_le (ep.2 - s.2) (clamp01 dr) hdr.1 hdr.2 (by omega)
      have hs : step1 s.2 ep.2 = 1 := by unfold step1; rw [if_neg (not_le.mpr hlt)]
      rw [hs]
      omega
  have hdy : 0 < dist1 s.2 ep.2 := by have := dist1_nonneg s.1 ep.1; omega
  obtain ⟨m, hm⟩ : ∃ m, (truncRat (((ep.2 - s.2 : ℤ) : ℚ) * clamp01 dr)).natAbs = m + 1 :=
    ⟨(truncRat (((ep.2 - s.2 : ℤ) : ℚ) * clamp01 dr)).natAbs - 1, by omega⟩
  rw [hm] at hLb
  simp only [renderDecayLine]
  rw [if_neg hmaj]
  rw [hm]
  rw [decayLoop1Y_swap]
  rw [show (dist1 s.2 ep.2).toNat + 1 =
    ((dist1 s.2 ep.2 - ((m + 1 : ℕ) : ℤ)).toNat) + 1 + (m + 1) from by omega]
  rw [decayLoop1X_state (s.2 + truncRat (((ep.2 - s.2 : ℤ) : ℚ) * clamp01 dr))
    (step1 s.2 ep.2) (step1 s.1 ep.1) (dist1 s.2 ep.2 * 2) (dist1 s.1 ep.1 * 2) col
    ⟨col.r, col.g, col.b, col.a * clamp01 ar⟩ (step1_cases s.2 ep.2)
    (by have := dist1_nonneg s.1 ep.1; omega) (by omega)
    ((dist1 s.2 ep.2 - ((m + 1 : ℕ) : ℤ)).toNat) (m + 1) ep.2 ep.1 (dist1 s.2 ep.2)
    hLb.2.1 (by omega) (by omega)]
  dsimp only
  rw [if_neg (show ¬ s.2 + truncRat (((ep.2 - s.2 : ℤ) : ℚ) * clamp01 dr) = s.2 from by omega)]
  rw [decayLoop2Y_swap]
  dsimp only
  have hemod : dist1 s.2 ep.2 +
      ((dist1 s.2 ep.2 - ((m + 1 : ℕ) : ℤ)).toNat : ℤ) * (dist1 s.1 ep.1 * 2) -
      dist1 s.2 ep.2 * 2 *
        ((dist1 s.2 ep.2 +
          ((dist1 s.2 ep.2 - ((m + 1 : ℕ) : ℤ)).toNat : ℤ) * (dist1 s.1 ep.1 * 2)) /
          (dist1 s.2 ep.2 * 2)) =
      (dist1 s.2 ep.2 +
        ((dist1 s.2 ep.2 - ((m + 1 : ℕ) : ℤ)).toNat : ℤ) * (dist1 s.1 ep.1 * 2)) %
        (dist1 s.2 ep.2 * 2) := (Int.emod_def _ _).symm
  rw [decayLoop2X_closed s.2 (step1 s.2 ep.2) (step1 s.1 ep.1) (dist1 s.2 ep.2 * 2)
    (dist1 s.1 ep.1 * 2) col (clamp01 ar)
    (col.a / (1 + ((m + 1 : ℕ) : ℚ)))
    (step1_cases s.2 ep.2) (by have := dist1_nonneg s.1 ep.1; omega) (by omega)
    m (s.2 + truncRat (((ep.2 - s.2 : ℤ) : ℚ) * clamp01 dr)) _ _ col.a
    (by push_cast at hLb ⊢; exact hLb.2.2)
    (by rw [hemod]; exact Int.emod_nonneg _ (by omega))
    (by rw [hemod]; exact Int.emod_lt_of_pos _ (by omega))]

lemma aaLoopY_swap (startY sx sy d2x d2y : ℤ) (col aaCol : ColorF) :
    ∀ (fuel : ℕ) (now : ℤ × ℤ) (e : ℤ),
      aaLoopY startY sx sy d2x d2y col aaCol fuel now e =
        (aaLoopX startY sy sx d2y d2x col aaCol fuel (now.2, now.1) e).map writeSwap := by
  intro fuel
  induction fuel with
  | zero => intro now e; rfl
  | succ fuel ih =>
    rintro ⟨nx, ny⟩ e
    rw [aaLoopY_succ, aaLoopX_succ, List.map_cons]
    by_cases hy : ny = startY
    · rw [if_pos hy, if_pos hy]
      rfl
    · rw [if_neg hy, if_neg hy]
      by_cases hfire : d2y ≤ e + d2x
      · rw [if_pos hfire, if_pos hfire, ih (nx + sx, ny + sy) (e + d2x - d2y)]
        rfl
      · rw [if_neg hfire, if_neg hfire, ih (nx, ny + sy) (e + d2x)]
        rfl

/-- C3 (amended): the spec's two rate extremes are swapped relative to the
code.  With `decaySectionRate = 0` the split point coincides with the start
point, so phase 1 (the plain AA pass at full intensity) covers the whole
segment and the output is exactly `renderLineAA` — no fade at all.  With
`decaySectionRate = 1` the split point coincides with the end point, so
phase 1 contributes only the single full-intensity pixel at the end point
and the fade-out loop (phase 2) spans the entire remaining segment, with
alpha step `col.a / (1 + dist[major])`. -/
theorem renderDecayLine_rate_extremes (s ep : ℤ × ℤ) (col : ColorF) (ar : ℚ) :
    renderDecayLine s ep col 0 ar = renderLineAA s ep col ar ∧
    (s ≠ ep →
      renderDecayLine s ep col 1 ar =
        (if dist1 s.2 ep.2 ≤ dist1 s.1 ep.1 then
          Write.mk ep col ::
            decayLoop2X s.1 (step1 s.1 ep.1) (step1 s.2 ep.2) (dist1 s.1 ep.1 * 2)
              (dist1 s.2 ep.2 * 2) col (clamp01 ar)
              (col.a / (1 + (((ep.1 - s.1).natAbs : ℕ) : ℚ))) (ep.1 - s.1).natAbs ep
              (dist1 s.1 ep.1) col.a
         else
          Write.mk ep col ::
            decayLoop2Y s.2 (step1 s.1 ep.1) (step1 s.2 ep.2) (dist1 s.1 ep.1 * 2)
              (dist1 s.2 ep.2 * 2) col (clamp01 ar)
              (col.a / (1 + (((ep.2 - s.2).natAbs : ℕ) : ℚ))) (ep.2 - s.2).natAbs ep
              (dist1 s.2 ep.2) col.a)) := by
  have hd1 := dist1_natAbs s.1 ep.1
  have hd2 := dist1_natAbs s.2 ep.2
  constructor
  · have hz : ∀ Δ : ℤ, truncRat ((Δ : ℚ) * clamp01 0) = 0 := fun Δ => by
      rw [clamp01_zero, mul_zero, truncRat_zero]
    by_cases hmaj : dist1 s.2 ep.2 ≤ dist1 s.1 ep.1
    · simp only [renderDecayLine, renderLineAA]
      rw [if_pos hmaj, if_pos hmaj, hz, add_zero]
      rcases eq_or_lt_of_le (dist1_nonneg s.1 ep.1) with hzx | hpos
      · rw [show (dist1 s.1 ep.1).toNat + 1 = 0 + 1 + 0 from by omega]
        rw [decayLoop1X_state s.1 (step1 s.1 ep.1) (step1 s.2 ep.2) (dist1 s.1 ep.1 * 2)
          (dist1 s.2 ep.2 * 2) col ⟨col.r, col.g, col.b, col.a * clamp01 ar⟩
          (step1_cases s.1 ep.1) (by have := dist1_nonneg s.2 ep.2; omega) (by omega)
          0 0 ep.1 ep.2 (dist1 s.1 ep.1)
          (by rw [Nat.cast_zero, zero_mul, add_zero]; omega) (by omega) (by omega)]
        dsimp only
        rw [if_pos (by omega : s.1 = s.1)]
        exact decayLoop1X_fst _ _ _ _ _ _ _ _ _ _
      · rw [decayLoop1X_state s.1 (step1 s.1 ep.1) (step1 s.2 ep.2) (dist1 s.1 ep.1 * 2)
          (dist1 s.2 ep.2 * 2) col ⟨col.r, col.g, col.b, col.a * clamp01 ar⟩
          (step1_cases s.1 ep.1) (by have := dist1_nonneg s.2 ep.2; omega) (by omega)
          ((dist1 s.1 ep.1).toNat) 0 ep.1 ep.2 (dist1 s.1 ep.1)
          (start_reach s.1 ep.1) (by omega) (by omega)]
        dsimp only
        rw [if_pos (by omega : s.1 = s.1)]
        exact decayLoop1X_fst _ _ _ _ _ _ _ _ _ _
    · simp only [renderDecayLine, renderLineAA]
      rw [if_neg hmaj, if_neg hmaj, hz, add_zero]
      have hpos : 0 < dist1 s.2 ep.2 := by have := dist1_nonneg s.1 ep.1; omega
      rw [decayLoop1Y_swap]
      rw [decayLoop1X_state s.2 (step1 s.2 ep.2) (step1 s.1 ep.1) (dist1 s.2 ep.2 * 2)
        (dist1 s.1 ep.1 * 2) col ⟨col.r, col.g, col.b, col.a * clamp01 ar⟩
        (step1_cases s.2 ep.2) (by have := dist1_nonneg s.1 ep.1; omega) (by omega)
        ((dist1 s.2 ep.2).toNat) 0 ep.2 ep.1 (dist1 s.2 ep.2)
        (start_reach s.2 ep.2) (by omega) (by omega)]
      dsimp only
      rw [if_pos (by omega : s.2 = s.2)]
      rw [decayLoop1X_fst]
      exact (aaLoopY_swap s.2 (step1 s.1 ep.1) (step1 s.2 ep.2) (dist1 s.1 ep.1 * 2)
        (dist1 s.2 ep.2 * 2) col ⟨col.r, col.g, col.b, col.a * clamp01 ar⟩
        ((dist1 s.2 ep.2).toNat + 1) ep (dist1 s.2 ep.2)).symm
  · intro hne
    have hne' : ¬ (s.1 = ep.1 ∧ s.2 = ep.2) := fun h => hne (Prod.ext h.1 h.2)
    have ho : ∀ Δ : ℤ, truncRat ((Δ : ℚ) * clamp01 1) = Δ := fun Δ => by
      rw [clamp01_one, mul_one, truncRat_intCast]
    by_cases hmaj : dist1 s.2 ep.2 ≤ dist1 s.1 ep.1
    · have hdx : 0 < dist1 s.1 ep.1 := by omega
      simp only [renderDecayLine]
      rw [if_pos hmaj, if_pos hmaj, ho]
      rw [show s.1 + (ep.1 - s.1) = ep.1 from by ring]
      rw [decayLoop1X_succ, if_pos rfl]
      dsimp only
      rw [if_neg (by omega : ¬ ep.1 = s.1)]
      rfl
    · have hdy : 0 < dist1 s.2 ep.2 := by have := dist1_nonneg s.1 ep.1; omega
      simp only [renderDecayLine]
      rw [if_neg hmaj, if_neg hmaj, ho]
      rw [show s.2 + (ep.2 - s.2) = ep.2 from by ring]
      rw [decayLoop1Y_succ, if_pos rfl]
      dsimp only
      rw [if_neg (by omega : ¬ ep.2 = s.2)]
      rfl

/-- C3 (counterexample): with `decaySectionRate = 0` on the segment
`(0,0)`-`(3,0)` every pixel — including the one at the start point — is
written with the full, unfaded base color: the run is a pure phase-1 pass,
refuting "with rate 0 the entire segment is phase 2 and receives the linear
alpha fade" (a fade pass decrements alpha before every draw, so the start
pixel would have alpha `1 - k * fadeStep < 1`). -/
theorem renderDecayLine_rate_zero_cex :
    renderDecayLine (0, 0) (3, 0) ⟨1, 1, 1, 1⟩ 0 (3 / 10) =
      [Write.mk (3, 0) ⟨1, 1, 1, 1⟩, Write.mk (2, 0) ⟨1, 1, 1, 1⟩,
       Write.mk (1, 0) ⟨1, 1, 1, 1⟩, Write.mk (0, 0) ⟨1, 1, 1, 1⟩] := by
  norm_num [renderDecayLine, decayLoop1X, decayLoop2X, truncRat, clamp01, dist1, step1]

/-- C3 witness: at `start = (0,0)`, `end = (4,0)`, rate 1, the whole segment
fades: phase 1 writes only the end pixel and phase 2 fades linearly with
step `1/5` down to the start pixel. -/
theorem renderDecayLine_rate_extremes_witness :
    renderDecayLine (0, 0) (4, 0) ⟨1, 1, 1, 1⟩ 1 (3 / 10) =
      [Write.mk (4, 0) ⟨1, 1, 1, 1⟩, Write.mk (3, 0) ⟨1, 1, 1, 4 / 5⟩,
       Write.mk (2, 0) ⟨1, 1, 1, 3 / 5⟩, Write.mk (1, 0) ⟨1, 1, 1, 2 / 5⟩,
       Write.mk (0, 0) ⟨1, 1, 1, 1 / 5⟩] := by
  have h := (renderDecayLine_rate_extremes (0, 0) (4, 0) ⟨1, 1, 1, 1⟩ (3 / 10)).2 (by decide)
  refine h.trans ?_
  norm_num [decayLoop2X, dist1, step1, clamp01]

/-- C4 (amended): the per-iteration phase-2 decrement is
`fadeStep = col.a / (1 + |decayLen|)` where `decayLen` is the major-axis
length of the decay section — the phase-2 span from the split point to the
start point (`split = start[major] + decayLen`) — not the length of phase 1;
the alpha is decremented before each draw (`decayBlocks` writes the main
pixel of iteration `k+1` with alpha exactly `col.a - (k+1) * fadeStep`). -/
theorem renderDecayLine_fade_formula (s ep : ℤ × ℤ) (col : ColorF) (dr ar : ℚ) :
    (dist1 s.2 ep.2 ≤ dist1 s.1 ep.1 → truncRat (((ep.1 - s.1 : ℤ) : ℚ) * clamp01 dr) ≠ 0 →
      renderDecayLine s ep col dr ar =
      (decayLoop1X (s.1 + truncRat (((ep.1 - s.1 : ℤ) : ℚ) * clamp01 dr)) (step1 s.1 ep.1)
          (step1 s.2 ep.2) (dist1 s.1 ep.1 * 2) (dist1 s.2 ep.2 * 2) col
          ⟨col.r, col.g, col.b, col.a * clamp01 ar⟩ ((dist1 s.1 ep.1).toNat + 1) ep
          (dist1 s.1 ep.1)).1 ++
        decayBlocks (step1 s.1 ep.1) (step1 s.2 ep.2) (dist1 s.1 ep.1 * 2)
          (dist1 s.2 ep.2 * 2) col (clamp01 ar)
          (col.a / (1 + (((truncRat (((ep.1 - s.1 : ℤ) : ℚ) * clamp01 dr)).natAbs : ℕ) : ℚ)))
          (s.1 + truncRat (((ep.1 - s.1 : ℤ) : ℚ) * clamp01 dr))
          ((decayLoop1X (s.1 + truncRat (((ep.1 - s.1 : ℤ) : ℚ) * clamp01 dr)) (step1 s.1 ep.1)
          (step1 s.2 ep.2) (dist1 s.1 ep.1 * 2) (dist1 s.2 ep.2 * 2) col
          ⟨col.r, col.g, col.b, col.a * clamp01 ar⟩ ((dist1 s.1 ep.1).toNat + 1) ep
          (dist1 s.1 ep.1)).2.1.2)
          ((decayLoop1X (s.1 + truncRat (((ep.1 - s.1 : ℤ) : ℚ) * clamp01 dr)) (step1 s.1 ep.1)
          (step1 s.2 ep.2) (dist1 s.1 ep.1 * 2) (dist1 s.2 ep.2 * 2) col
          ⟨col.r, col.g, col.b, col.a * clamp01 ar⟩ ((dist1 s.1 ep.1).toNat + 1) ep
          (dist1 s.1 ep.1)).2.2)
          col.a (truncRat (((ep.1 - s.1 : ℤ) : ℚ) * clamp01 dr)).natAbs) ∧
    (¬ dist1 s.2 ep.2 ≤ dist1 s.1 ep.1 → truncRat (((ep.2 - s.2 : ℤ) : ℚ) * clamp01 dr) ≠ 0 →
      renderDecayLine s ep col dr ar =
      (decayLoop1Y (s.2 + truncRat (((ep.2 - s.2 : ℤ) : ℚ) * clamp01 dr)) (step1 s.1 ep.1)
          (step1 s.2 ep.2) (dist1 s.1 ep.1 * 2) (dist1 s.2 ep.2 * 2) col
          ⟨col.r, col.g, col.b, col.a * clamp01 ar⟩ ((dist1 s.2 ep.2).toNat + 1) ep
          (dist1 s.2 ep.2)).1 ++
        (decayBlocks (step1 s.2 ep.2) (step1 s.1 ep.1) (dist1 s.2 ep.2 * 2)
          (dist1 s.1 ep.1 * 2) col (clamp01 ar)
          (col.a / (1 + (((truncRat (((ep.2 - s.2 : ℤ) : ℚ) * clamp01 dr)).natAbs : ℕ) : ℚ)))
          (s.2 + truncRat (((ep.2 - s.2 : ℤ) : ℚ) * clamp01 dr))
          ((decayLoop1Y (s.2 + truncRat (((ep.2 - s.2 : ℤ) : ℚ) * clamp01 dr)) (step1 s.1 ep.1)
          (step1 s.2 ep.2) (dist1 s.1 ep.1 * 2) (dist1 s.2 ep.2 * 2) col
          ⟨col.r, col.g, col.b, col.a * clamp01 ar⟩ ((dist1 s.2 ep.2).toNat + 1) ep
          (dist1 s.2 ep.2)).2.1.1)
          ((decayLoop1Y (s.2 + truncRat (((ep.2 - s.2 : ℤ) : ℚ) * clamp01 dr)) (step1 s.1 ep.1)
          (step1 s.2 ep.2) (dist1 s.1 ep.1 * 2) (dist1 s.2 ep.2 * 2) col
          ⟨col.r, col.g, col.b, col.a * clamp01 ar⟩ ((dist1 s.2 ep.2).toNat + 1) ep
          (dist1 s.2 ep.2)).2.2)
          col.a (truncRat (((ep.2 - s.2 : ℤ) : ℚ) * clamp01 dr)).natAbs).map writeSwap) :=
  ⟨renderDecayLine_split_x s ep col dr ar, renderDecayLine_split_y s ep col dr ar⟩

/-- C4 (counterexample): on `(0,0)`-`(5,0)` with rate `2/5` the split point
is `x = 2`, phase 1 (end to split) has major-axis length `3` and the decay
section (split to start) has length `2`; the code decrements by
`1/(1+2) = 1/3` per phase-2 step (the pixel at `(1,0)` is written with alpha
`2/3`), while the claim's formula `alpha / (1 + |phase-1 length|)` would
give a decrement of `1/(1+3) = 1/4` per step. -/
theorem renderDecayLine_fade_formula_cex :
    renderDecayLine (0, 0) (5, 0) ⟨1, 1, 1, 1⟩ (2 / 5) (3 / 10) =
      [Write.mk (5, 0) ⟨1, 1, 1, 1⟩, Write.mk (4, 0) ⟨1, 1, 1, 1⟩,
       Write.mk (3, 0) ⟨1, 1, 1, 1⟩, Write.mk (2, 0) ⟨1, 1, 1, 1⟩,
       Write.mk (1, 0) ⟨1, 1, 1, 2 / 3⟩, Write.mk (0, 0) ⟨1, 1, 1, 1 / 3⟩] ∧
    (1 : ℚ) - 2 / 3 ≠ 1 / (1 + 3) := by
  constructor
  · norm_num [renderDecayLine, decayLoop1X, decayLoop2X, truncRat, clamp01, dist1, step1]
  · norm_num

/-- C4 witness: the amended formula instantiated on `(0,0)`-`(5,0)` with
rate `2/5`: phase 1 runs from `(5,0)` to the split `(2,0)` at full alpha,
then two fade steps of `1/3` each down to the start pixel. -/
theorem renderDecayLine_fade_formula_witness :
    renderDecayLine (0, 0) (5, 0) ⟨1, 1, 1, 1⟩ (2 / 5) (3 / 10) =
      [Write.mk (5, 0) ⟨1, 1, 1, 1⟩, Write.mk (4, 0) ⟨1, 1, 1, 1⟩,
       Write.mk (3, 0) ⟨1, 1, 1, 1⟩, Write.mk (2, 0) ⟨1, 1, 1, 1⟩,
       Write.mk (1, 0) ⟨1, 1, 1, 2 / 3⟩, Write.mk (0, 0) ⟨1, 1, 1, 1 / 3⟩] := by
  have h := (renderDecayLine_fade_formula (0, 0) (5, 0) ⟨1, 1, 1, 1⟩ (2 / 5) (3 / 10)).1
    (by decide) (by norm_num [truncRat, clamp01])
  refine h.trans ?_
  norm_num [decayLoop1X, decayBlocks, truncRat, clamp01, dist1, step1, List.range_succ]

lemma getLast?_ite_blocks {c : Prop} [Decidable c] (w1 u1 u2 u3 : Write) :
    (if c then [w1] else [u1, u2, u3]).getLast? = some (if c then w1 else u3) := by
  split <;> rfl

lemma decayBlocks_getLast (sx sy d2x d2y : ℤ) (rgb : ColorF) (aaRate fade : ℚ)
    (nx ny e0 : ℤ) (a : ℚ) (m : ℕ) :
    (decayBlocks sx sy d2x d2y rgb aaRate fade nx ny e0 a (m + 1)).getLast? =
      some (Write.mk (nx + ((m : ℤ) + 1) * sx,
          ny + sy * ((e0 + ((m : ℤ) + 1) * d2y) / d2x))
        ⟨rgb.r, rgb.g, rgb.b, a - ((m : ℚ) + 1) * fade⟩) := by
  unfold decayBlocks
  rw [List.range_succ, List.map_append, List.flatten_append, List.getLast?_append]
  simp only [List.map_cons, List.map_nil, List.flatten_cons, List.flatten_nil, List.append_nil]
  rw [getLast?_ite_blocks, Option.or_some]
  by_cases hc : (e0 + ((m : ℤ) + 1) * d2y) / d2x = (e0 + (m : ℤ) * d2y) / d2x
  · rw [if_pos hc, hc]
  · rw [if_neg hc]

lemma fade_last (a : ℚ) (m : ℕ) :
    a - ((m : ℚ) + 1) * (a / (1 + ((m + 1 : ℕ) : ℚ))) = a / (1 + ((m + 1 : ℕ) : ℚ)) := by
  have h : (1 : ℚ) + ((m : ℚ) + 1) ≠ 0 := by positivity
  push_cast
  field_simp
  ring

lemma decay_final_minor (dx dy ep2 s2 sy : ℤ) (m : ℕ) (hdx : 0 < dx)
    (hMle : ((m + 1 : ℕ) : ℤ) ≤ dx) (hreach : s2 = ep2 + dy * sy) :
    ep2 + sy * ((dx + (((dx - ((m + 1 : ℕ) : ℤ)).toNat : ℕ) : ℤ) * (dy * 2)) / (dx * 2)) +
      sy * ((dx + (((dx - ((m + 1 : ℕ) : ℤ)).toNat : ℕ) : ℤ) * (dy * 2) -
        dx * 2 * ((dx + (((dx - ((m + 1 : ℕ) : ℤ)).toNat : ℕ) : ℤ) * (dy * 2)) / (dx * 2)) +
        ((m : ℤ) + 1) * (dy * 2)) / (dx * 2)) = s2 := by
  have hn1 : (((dx - ((m + 1 : ℕ) : ℤ)).toNat : ℕ) : ℤ) = dx - ((m + 1 : ℕ) : ℤ) :=
    Int.toNat_of_nonneg (by omega)
  rw [hn1]
  have hM : ((m + 1 : ℕ) : ℤ) = (m : ℤ) + 1 := by push_cast; ring
  rw [hM]
  have hnum : dx + (dx - ((m : ℤ) + 1)) * (dy * 2) -
      dx * 2 * ((dx + (dx - ((m : ℤ) + 1)) * (dy * 2)) / (dx * 2)) + ((m : ℤ) + 1) * (dy * 2) =
      dx + (dy - (dx + (dx - ((m : ℤ) + 1)) * (dy * 2)) / (dx * 2)) * (dx * 2) := by ring
  rw [hnum, Int.add_mul_ediv_right _ _ (show (dx * 2 : ℤ) ≠ 0 from by omega),
    self_div_twice dx (by omega)]
  rw [hreach]
  ring

/-- C5 (amended): for `renderDecayLine` with decay rate strictly between 0 and 1, a
positive initial alpha, and a nonzero truncated decay length (the truncation
`decayLen = trunc(extent * rate)` can be zero even for rate in (0,1), in which case the
function returns right after phase 1 and the start pixel keeps the full alpha), the very
last write is the main pixel at the start point with alpha
`col.a / (1 + |decayLen|)`, strictly greater than 0 and strictly less than the full
alpha `col.a` used at the split point. -/
theorem renderDecayLine_final_alpha (s ep : ℤ × ℤ) (col : ColorF) (dr ar : ℚ)
    (ha : 0 < col.a) (hdr0 : 0 < dr) (hdr1 : dr < 1) :
    (dist1 s.2 ep.2 ≤ dist1 s.1 ep.1 →
      truncRat (((ep.1 - s.1 : ℤ) : ℚ) * clamp01 dr) ≠ 0 →
      ((renderDecayLine s ep col dr ar).getLast? =
          some (Write.mk (s.1, s.2) ⟨col.r, col.g, col.b,
            col.a / (1 + (((truncRat (((ep.1 - s.1 : ℤ) : ℚ) * clamp01 dr)).natAbs : ℕ) : ℚ))⟩) ∧
        0 < col.a / (1 + (((truncRat (((ep.1 - s.1 : ℤ) : ℚ) * clamp01 dr)).natAbs : ℕ) : ℚ)) ∧
        col.a / (1 + (((truncRat (((ep.1 - s.1 : ℤ) : ℚ) * clamp01 dr)).natAbs : ℕ) : ℚ)) <
          col.a)) ∧
    (¬ dist1 s.2 ep.2 ≤ dist1 s.1 ep.1 →
      truncRat (((ep.2 - s.2 : ℤ) : ℚ) * clamp01 dr) ≠ 0 →
      ((renderDecayLine s ep col dr ar).getLast? =
          some (Write.mk (s.1, s.2) ⟨col.r, col.g, col.b,
            col.a / (1 + (((truncRat (((ep.2 - s.2 : ℤ) : ℚ) * clamp01 dr)).natAbs : ℕ) : ℚ))⟩) ∧
        0 < col.a / (1 + (((truncRat (((ep.2 - s.2 : ℤ) : ℚ) * clamp01 dr)).natAbs : ℕ) : ℚ)) ∧
        col.a / (1 + (((truncRat (((ep.2 - s.2 : ℤ) : ℚ) * clamp01 dr)).natAbs : ℕ) : ℚ)) <
          col.a)) := by
  constructor
  · intro hmaj hLne
    have hd1 := dist1_natAbs s.1 ep.1
    have hd2 := dist1_natAbs s.2 ep.2
    have hdr := clamp01_mem dr
    obtain ⟨m, hm⟩ : ∃ m, (truncRat (((ep.1 - s.1 : ℤ) : ℚ) * clamp01 dr)).natAbs = m + 1 :=
      ⟨(truncRat (((ep.1 - s.1 : ℤ) : ℚ) * clamp01 dr)).natAbs - 1, by omega⟩
    have hLb : (((truncRat (((ep.1 - s.1 : ℤ) : ℚ) * clamp01 dr)).natAbs : ℤ) ≤ dist1 s.1 ep.1) ∧
        s.1 + truncRat (((ep.1 - s.1 : ℤ) : ℚ) * clamp01 dr) =
          ep.1 + ((dist1 s.1 ep.1 - ((truncRat (((ep.1 - s.1 : ℤ) : ℚ) * clamp01 dr)).natAbs : ℤ)).toNat : ℤ) * step1 s.1 ep.1 ∧
        s.1 = (s.1 + truncRat (((ep.1 - s.1 : ℤ) : ℚ) * clamp01 dr)) + (((truncRat (((ep.1 - s.1 : ℤ) : ℚ) * clamp01 dr)).natAbs : ℤ)) * step1 s.1 ep.1 := by
      rcases le_or_lt s.1 ep.1 with hle | hlt
      · have hb := truncRat_mul_le (ep.1 - s.1) (clamp01 dr) hdr.1 hdr.2 (by omega)
        have hs : step1 s.1 ep.1 = -1 := by unfold step1; rw [if_pos hle]
        rw [hs]
        omega
      · have hb := truncRat_mul_neg_le (ep.1 - s.1) (clamp01 dr) hdr.1 hdr.2 (by omega)
        have hs : step1 s.1 ep.1 = 1 := by unfold step1; rw [if_neg (not_le.mpr hlt)]
        rw [hs]
        omega
    have hdx : 0 < dist1 s.1 ep.1 := by
      rcases le_or_lt s.1 ep.1 with hle | hlt
      · have hb := truncRat_mul_le (ep.1 - s.1) (clamp01 dr) hdr.1 hdr.2 (by omega)
        omega
      · have hb := truncRat_mul_neg_le (ep.1 - s.1) (clamp01 dr) hdr.1 hdr.2 (by omega)
        omega
    rw [hm] at hLb
    have hreach : s.2 = ep.2 + dist1 s.2 ep.2 * step1 s.2 ep.2 := by
      have h := start_reach s.2 ep.2
      rwa [Int.toNat_of_nonneg (dist1_nonneg s.2 ep.2)] at h
    rw [hm]
    refine ⟨?_, div_pos ha (by positivity), div_lt_self ha (by
      push_cast
      have h0 : (0 : ℚ) ≤ (m : ℚ) := Nat.cast_nonneg m
      linarith)⟩
    rw [renderDecayLine_split_x s ep col dr ar hmaj hLne, hm]
    rw [List.getLast?_append, decayBlocks_getLast, Option.or_some]
    rw [show (dist1 s.1 ep.1).toNat + 1 =
      ((dist1 s.1 ep.1 - ((m + 1 : ℕ) : ℤ)).toNat) + 1 + (m + 1) from by omega]
    rw [decayLoop1X_state (s.1 + truncRat (((ep.1 - s.1 : ℤ) : ℚ) * clamp01 dr))
      (step1 s.1 ep.1) (step1 s.2 ep.2) (dist1 s.1 ep.1 * 2) (dist1 s.2 ep.2 * 2) col
      ⟨col.r, col.g, col.b, col.a * clamp01 ar⟩ (step1_cases s.1 ep.1)
      (by have := dist1_nonneg s.2 ep.2; omega) (by omega)
      ((dist1 s.1 ep.1 - ((m + 1 : ℕ) : ℤ)).toNat) (m + 1) ep.1 ep.2 (dist1 s.1 ep.1)
      hLb.2.1 (by omega) (Or.inl (by omega))]
    dsimp only
    rw [Option.some.injEq, Write.mk.injEq, Prod.mk.injEq, ColorF.mk.injEq]
    refine ⟨⟨?_, ?_⟩, rfl, rfl, rfl, ?_⟩
    · have h3 := hLb.2.2
      push_cast at h3 ⊢
      linarith
    · exact decay_final_minor (dist1 s.1 ep.1) (dist1 s.2 ep.2) ep.2 s.2 (step1 s.2 ep.2) m hdx
        (by omega) hreach
    · exact fade_last col.a m
  · intro hmaj hLne
    have hd1 := dist1_natAbs s.1 ep.1
    have hd2 := dist1_natAbs s.2 ep.2
    have hdr := clamp01_mem dr
    obtain ⟨m, hm⟩ : ∃ m, (truncRat (((ep.2 - s.2 : ℤ) : ℚ) * clamp01 dr)).natAbs = m + 1 :=
      ⟨(truncRat (((ep.2 - s.2 : ℤ) : ℚ) * clamp01 dr)).natAbs - 1, by omega⟩
    have hLbY : (((truncRat (((ep.2 - s.2 : ℤ) : ℚ) * clamp01 dr)).natAbs : ℤ) ≤ dist1 s.2 ep.2) ∧
        s.2 + truncRat (((ep.2 - s.2 : ℤ) : ℚ) * clamp01 dr) =
          ep.2 + ((dist1 s.2 ep.2 - ((truncRat (((ep.2 - s.2 : ℤ) : ℚ) * clamp01 dr)).natAbs : ℤ)).toNat : ℤ) * step1 s.2 ep.2 ∧
        s.2 = (s.2 + truncRat (((ep.2 - s.2 : ℤ) : ℚ) * clamp01 dr)) + (((truncRat (((ep.2 - s.2 : ℤ) : ℚ) * clamp01 dr)).natAbs : ℤ)) * step1 s.2 ep.2 := by
      rcases le_or_lt s.2 ep.2 with hle | hlt
      · have hb := truncRat_mul_le (ep.2 - s.2) (clamp01 dr) hdr.1 hdr.2 (by omega)
        have hs : step1 s.2 ep.2 = -1 := by unfold step1; rw [if_pos hle]
        rw [hs]
        omega
      · have hb := truncRat_mul_neg_le (ep.2 - s.2) (clamp01 dr) hdr.1 hdr.2 (by omega)
        have hs : step1 s.2 ep.2 = 1 := by unfold step1; rw [if_neg (not_le.mpr hlt)]
        rw [hs]
        omega
    have hdy : 0 < dist1 s.2 ep.2 := by
      have := dist1_nonneg s.1 ep.1
      omega
    rw [hm] at hLbY
    have hreach : s.1 = ep.1 + dist1 s.1 ep.1 * step1 s.1 ep.1 := by
      have h := start_reach s.1 ep.1
      rwa [Int.toNat_of_nonneg (dist1_nonneg s.1 ep.1)] at h
    rw [hm]
    refine ⟨?_, div_pos ha (by positivity), div_lt_self ha (by
      push_cast
      have h0 : (0 : ℚ) ≤ (m : ℚ) := Nat.cast_nonneg m
      linarith)⟩
    rw [renderDecayLine_split_y s ep col dr ar hmaj hLne, hm]
    rw [List.getLast?_append, List.getLast?_map, decayBlocks_getLast, Option.map_some',
      Option.or_some]
    dsimp only [writeSwap]
    rw [decayLoop1Y_swap]
    dsimp only
    rw [show (dist1 s.2 ep.2).toNat + 1 =
      ((dist1 s.2 ep.2 - ((m + 1 : ℕ) : ℤ)).toNat) + 1 + (m + 1) from by omega]
    rw [decayLoop1X_state (s.2 + truncRat (((ep.2 - s.2 : ℤ) : ℚ) * clamp01 dr))
      (step1 s.2 ep.2) (step1 s.1 ep.1) (dist1 s.2 ep.2 * 2) (dist1 s.1 ep.1 * 2) col
      ⟨col.r, col.g, col.b, col.a * clamp01 ar⟩ (step1_cases s.2 ep.2)
      (by have := dist1_nonneg s.1 ep.1; omega) (by omega)
      ((dist1 s.2 ep.2 - ((m + 1 : ℕ) : ℤ)).toNat) (m + 1) ep.2 ep.1 (dist1 s.2 ep.2)
      hLbY.2.1 (by omega) (by omega)]
    dsimp only
    rw [Option.some.injEq, Write.mk.injEq, Prod.mk.injEq, ColorF.mk.injEq]
    refine ⟨⟨?_, ?_⟩, rfl, rfl, rfl, ?_⟩
    · exact decay_final_minor (dist1 s.2 ep.2) (dist1 s.1 ep.1) ep.1 s.1 (step1 s.1 ep.1) m hdy
        (by omega) hreach
    · have h3 := hLbY.2.2
      push_cast at h3 ⊢
      linarith
    · exact fade_last col.a m

/-- C5, counterexample to the unamended wording: with decay rate `1/10` strictly inside
`(0, 1)` and nonzero major-axis extent `4`, the truncated decay length
`trunc(4 * (1/10)) = 0`, so `renderDecayLine` returns right after phase 1 and the final
write at the start point keeps the full alpha `1` — not strictly less than the alpha at
the split point. -/
theorem renderDecayLine_final_alpha_cex :
    (renderDecayLine ((0 : ℤ), (0 : ℤ)) ((4 : ℤ), (0 : ℤ)) ⟨1, 1, 1, 1⟩ (1/10)
        (3/10)).getLast? = some (Write.mk ((0 : ℤ), (0 : ℤ)) ⟨1, 1, 1, 1⟩) := by
  norm_num [renderDecayLine, decayLoop1X, decayLoop2X, truncRat, clamp01, dist1, step1,
    List.getLast?_cons_cons, List.getLast?_singleton]

/-- C5, witness: on the segment (0,0)–(5,0) with decay rate `2/5` the truncated decay
length is `2`, and the last write is the main pixel at the start point with alpha
`1 / (1 + 2) = 1/3`, strictly between `0` and the full alpha `1`. -/
theorem renderDecayLine_final_alpha_witness :
    ((renderDecayLine ((0 : ℤ), (0 : ℤ)) ((5 : ℤ), (0 : ℤ)) ⟨1, 1, 1, 1⟩ (2/5)
        (3/10)).getLast? =
      some (Write.mk ((0 : ℤ), (0 : ℤ)) ⟨1, 1, 1,
        (1 : ℚ) / (1 + (((truncRat (((5 - 0 : ℤ) : ℚ) * clamp01 (2/5))).natAbs : ℕ) : ℚ))⟩)) ∧
    0 < (1 : ℚ) / (1 + (((truncRat (((5 - 0 : ℤ) : ℚ) * clamp01 (2/5))).natAbs : ℕ) : ℚ)) ∧
    (1 : ℚ) / (1 + (((truncRat (((5 - 0 : ℤ) : ℚ) * clamp01 (2/5))).natAbs : ℕ) : ℚ)) < 1 :=
  (renderDecayLine_final_alpha ((0 : ℤ), (0 : ℤ)) ((5 : ℤ), (0 : ℤ)) ⟨1, 1, 1, 1⟩ (2/5) (3/10)
    (by norm_num) (by norm_num) (by norm_num)).1 (by decide) (by norm_num [truncRat, clamp01])
